import Mathlib

/-!
# OAuth2 authorization-code flow of `main.go`

A shallow embedding of the handlers of `src/main.go` (`getOauthConfig`,
`generateStateOauthCookie`, `getUserData`, `oauthCfLogin`, `oauthCfCallback`) together
with models of the Go library functions they call (`encoding/base64`, `net/url`, `path`,
`net/http` cookies and redirects, `golang.org/x/oauth2`, `encoding/json`, `fmt`).

Conventions.
* A Go `string` / `[]byte` is a list of bytes, `GoString = List (Fin 256)`.
* The process environment, the clock, the identity provider and the lexical layer of
  `encoding/json` are fields of a `World`; the handlers are functions of the world, the
  request and (for login) the bytes drawn from `crypto/rand`.
* A handler returns an `Outcome`: the HTTP response it produced, the lines it logged and
  the outbound calls it made, in order.
-/

namespace DashboardProxy

/-! ## Bytes and strings -/

/-- One byte. -/
abbrev Byte := Fin 256

/-- Go string: an immutable sequence of bytes. -/
abbrev GoString := List Byte

/-- Bytes of an ASCII literal. -/
def str (s : String) : GoString := s.toList.map (fun c => Fin.ofNat c.toNat)

deriving instance DecidableEq for Except

/-- Go `strings.Contains(s, string(c))` for a single byte `c`. -/
def containsByte (c : Byte) (s : GoString) : Bool := s.any (fun x => x == c)

/-- Go `strings.HasPrefix`. -/
def hasPrefix : GoString → GoString → Bool
  | _, [] => true
  | [], _ :: _ => false
  | x :: s, y :: p => x == y && hasPrefix s p

/-- Go `strings.HasSuffix`. -/
def hasSuffix (s suffix : GoString) : Bool := hasPrefix s.reverse suffix.reverse

/-- Go `strings.LastIndex(s, string(c))` for a single byte `c`; `none` is `-1`. -/
def lastIndexByte (c : Byte) : GoString → Option Nat
  | [] => none
  | x :: s =>
    match lastIndexByte c s with
    | some i => some (i + 1)
    | none => if x = c then some 0 else none

/-- Go `strings.Join(xs, sep)`. -/
def join (sep : GoString) : List GoString → GoString
  | [] => []
  | [x] => x
  | x :: y :: rest => x ++ sep ++ join sep (y :: rest)

/-- Bytewise lexicographic order on strings (Go `<` on strings). -/
def strLt : GoString → GoString → Bool
  | [], [] => false
  | [], _ :: _ => true
  | _ :: _, [] => false
  | x :: s, y :: t => if x.val < y.val then true else if y.val < x.val then false else strLt s t

/-! ## `encoding/base64`, `URLEncoding` -/

namespace base64

/-- The alphabet of `base64.URLEncoding` (`encodeURL`). -/
def encodeURL : GoString :=
  str "ABCDEFGHIJKLMNOPQRSTUVWXYZabcdefghijklmnopqrstuvwxyz0123456789-_"

/-- The padding character `StdPadding`, the byte `=`. -/
def padChar : Byte := 61

/-- Table lookup `enc.encode[i]`. -/
def encode (i : Nat) : Byte := encodeURL.getD i 0

/-- Go `(*Encoding).EncodeToString` for `URLEncoding` (padded): full groups of three
bytes give four characters; a remainder of one or two bytes gives two or three
characters followed by padding. -/
def EncodeToString : List Byte → GoString
  | [] => []
  | [a] =>
    let val := a.val <<< 16
    [encode ((val >>> 18) &&& 0x3F), encode ((val >>> 12) &&& 0x3F), padChar, padChar]
  | [a, b] =>
    let val := (a.val <<< 16) ||| (b.val <<< 8)
    [encode ((val >>> 18) &&& 0x3F), encode ((val >>> 12) &&& 0x3F),
      encode ((val >>> 6) &&& 0x3F), padChar]
  | a :: b :: c :: rest =>
    let val := (a.val <<< 16) ||| (b.val <<< 8) ||| c.val
    encode ((val >>> 18) &&& 0x3F) :: encode ((val >>> 12) &&& 0x3F) ::
      encode ((val >>> 6) &&& 0x3F) :: encode (val &&& 0x3F) :: EncodeToString rest

/-- Inverse table `enc.decodeMap`: the six-bit value of an alphabet character. -/
def decodeMap (c : Byte) : Option Nat :=
  let i := encodeURL.indexOf c
  if i < 64 then some i else none

/-- Truncation `byte(x)`. -/
def toByte (x : Nat) : Byte := Fin.ofNat (x % 256)

/-- Go `(*Encoding).DecodeString` for `URLEncoding` (padded, not strict; the skipping of
line breaks is left out): quanta of four alphabet characters give three bytes, and the
last quantum may end in one or two padding characters. -/
def DecodeString : GoString → Option (List Byte)
  | [] => some []
  | c0 :: c1 :: c2 :: c3 :: rest =>
    if c2 = padChar ∧ c3 = padChar ∧ rest = [] then
      match decodeMap c0, decodeMap c1 with
      | some i0, some i1 =>
        let val := (i0 <<< 18) ||| (i1 <<< 12)
        some [toByte (val >>> 16)]
      | _, _ => none
    else if c3 = padChar ∧ rest = [] then
      match decodeMap c0, decodeMap c1, decodeMap c2 with
      | some i0, some i1, some i2 =>
        let val := (i0 <<< 18) ||| (i1 <<< 12) ||| (i2 <<< 6)
        some [toByte (val >>> 16), toByte (val >>> 8)]
      | _, _, _ => none
    else
      match decodeMap c0, decodeMap c1, decodeMap c2, decodeMap c3, DecodeString rest with
      | some i0, some i1, some i2, some i3, some tail =>
        let val := (i0 <<< 18) ||| (i1 <<< 12) ||| (i2 <<< 6) ||| i3
        some (toByte (val >>> 16) :: toByte (val >>> 8) :: toByte val :: tail)
      | _, _, _, _, _ => none
  | _ => none

end base64

/-! ## `net/url`: query escaping, `Values`, `ParseQuery` -/

/-- Go map with string keys, kept as an association list sorted by key, one entry per
key. Go leaves the iteration order of a map unspecified; `url.Values.Encode` and `fmt`
both visit the keys in sorted order, which is the order kept here. -/
abbrev StrMap (α : Type) := List (GoString × α)

namespace StrMap

/-- Map index `m[k]`, with the presence flag as an `Option`. -/
def get {α : Type} (k : GoString) : StrMap α → Option α
  | [] => none
  | (k1, v1) :: m => if k = k1 then some v1 else get k m

/-- Map assignment `m[k] = v`. -/
def set {α : Type} (k : GoString) (v : α) : StrMap α → StrMap α
  | [] => [(k, v)]
  | (k1, v1) :: m =>
    if k = k1 then (k, v) :: m
    else if strLt k k1 then (k, v) :: (k1, v1) :: m
    else (k1, v1) :: set k v m

end StrMap

namespace url

/-- The table `upperhex`. -/
def upperhex : GoString := str "0123456789ABCDEF"

/-- ASCII letters and digits, the first test of `shouldEscape`. -/
def isAlnum (c : Byte) : Bool :=
  (97 ≤ c.val && c.val ≤ 122) || (65 ≤ c.val && c.val ≤ 90) || (48 ≤ c.val && c.val ≤ 57)

/-- Go `shouldEscape(c, encodeQueryComponent)`: letters, digits and `-` `_` `.` `~` are
kept, every other byte is escaped (the reserved characters included). -/
def shouldEscape (c : Byte) : Bool :=
  if isAlnum c then false
  else if c = 45 ∨ c = 95 ∨ c = 46 ∨ c = 126 then false
  else true

/-- One step of the loop of `escape(s, encodeQueryComponent)`: a space becomes `+`,
another escaped byte becomes `%XX`, any other byte is copied. -/
def escapeByte (c : Byte) : GoString :=
  if shouldEscape c then
    if c = 32 then [43]
    else [37, upperhex.getD (c.val >>> 4) 0, upperhex.getD (c.val &&& 15) 0]
  else [c]

/-- Go `url.QueryEscape`. -/
def QueryEscape (s : GoString) : GoString := s.flatMap escapeByte

/-- Go `ishex`. -/
def ishex (c : Byte) : Bool :=
  (48 ≤ c.val && c.val ≤ 57) || (97 ≤ c.val && c.val ≤ 102) || (65 ≤ c.val && c.val ≤ 70)

/-- Go `unhex`. -/
def unhex (c : Byte) : Nat :=
  if 48 ≤ c.val ∧ c.val ≤ 57 then c.val - 48
  else if 97 ≤ c.val ∧ c.val ≤ 102 then c.val - 97 + 10
  else if 65 ≤ c.val ∧ c.val ≤ 70 then c.val - 65 + 10
  else 0

/-- Go `url.QueryUnescape`: `%XX` becomes the byte `XX`, `+` becomes a space; a `%` that
is not followed by two hex digits is an error. -/
def QueryUnescape : GoString → Option GoString
  | [] => some []
  | c :: rest =>
    if c = 37 then
      match rest with
      | h1 :: h2 :: rest2 =>
        if ishex h1 ∧ ishex h2 then
          (QueryUnescape rest2).map
            (fun t => (Fin.ofNat (((unhex h1 <<< 4) ||| unhex h2) % 256) : Byte) :: t)
        else none
      | _ => none
    else if c = 43 then (QueryUnescape rest).map (fun t => (32 : Byte) :: t)
    else (QueryUnescape rest).map (fun t => c :: t)

/-- Go `url.Values`, a `map[string][]string`. -/
abbrev Values := StrMap (List GoString)

/-- Go `Values.Set`. -/
def Values.Set (m : Values) (k v : GoString) : Values := StrMap.set k [v] m

/-- Go `Values.Add`, and the statement `m[key] = append(m[key], value)` of `parseQuery`. -/
def Values.Add (m : Values) (k v : GoString) : Values :=
  StrMap.set k ((StrMap.get k m).getD [] ++ [v]) m

/-- Go `Values.Get`: the first value of the key, or the empty string. -/
def Values.Get (m : Values) (k : GoString) : GoString :=
  match StrMap.get k m with
  | some (v :: _) => v
  | _ => []

/-- Go `Values.Encode`: `key=value` pairs, keys in sorted order, both sides escaped,
joined by `&`. -/
def Values.Encode (m : Values) : GoString :=
  join (str "&")
    (m.flatMap (fun kv => kv.2.map (fun v => QueryEscape kv.1 ++ str "=" ++ QueryEscape v)))

/-- The pieces of `s` between occurrences of the byte `sep`. -/
def splitOn (sep : Byte) : GoString → List GoString
  | [] => [[]]
  | c :: s =>
    if c = sep then [] :: splitOn sep s
    else
      match splitOn sep s with
      | [] => [[c]]
      | h :: t => (c :: h) :: t

/-- Go `strings.Cut(s, string(sep))` without the found flag: the text before the first
`sep` and the text after it. -/
def cut (sep : Byte) : GoString → GoString × GoString
  | [] => ([], [])
  | c :: s => if c = sep then ([], s) else ((c :: (cut sep s).1), (cut sep s).2)

/-- One iteration of the loop of `parseQuery` on the segment `seg`: segments with a
semicolon, empty segments and segments that fail to unescape are skipped. -/
def parseSegment (m : Values) (seg : GoString) : Values :=
  if containsByte 59 seg then m
  else if seg = [] then m
  else
    match QueryUnescape (cut 61 seg).1, QueryUnescape (cut 61 seg).2 with
    | some k, some v => m.Add k v
    | _, _ => m

/-- Go `url.ParseQuery` (the values; the error is dropped): the loop cuts one
`&`-separated segment per iteration. -/
def ParseQuery (query : GoString) : Values := (splitOn 38 query).foldl parseSegment []

/-- Go `stringContainsCTLByte`: a byte below `0x20`, or `0x7f`. -/
def stringContainsCTLByte (s : GoString) : Bool := s.any (fun b => b.val < 32 || b.val == 127)

/-- The loop of Go `getScheme` at index `i`, where `rest` is `rawURL[i:]`: the scheme and
the text after its colon; `none` is the error `missing protocol scheme`. -/
def getSchemeFrom (rawURL : GoString) : Nat → GoString → Option (GoString × GoString)
  | _, [] => some ([], rawURL)
  | i, c :: rest =>
    if (97 ≤ c.val && c.val ≤ 122) || (65 ≤ c.val && c.val ≤ 90) then
      getSchemeFrom rawURL (i + 1) rest
    else if (48 ≤ c.val && c.val ≤ 57) || c == 43 || c == 45 || c == 46 then
      if i = 0 then some ([], rawURL) else getSchemeFrom rawURL (i + 1) rest
    else if c == 58 then
      if i = 0 then none else some (rawURL.take i, rest)
    else some ([], rawURL)

/-- Go `getScheme`. -/
def getScheme (rawURL : GoString) : Option (GoString × GoString) :=
  getSchemeFrom rawURL 0 rawURL

/-- Whether Go `unescape(s, mode)` returns no error, for the modes `encodePath`,
`encodeFragment` and `encodeUserPassword`: every `%` is followed by two hex digits. -/
def validEscapes : GoString → Bool
  | [] => true
  | c :: rest =>
    if c = 37 then
      match rest with
      | h1 :: h2 :: rest2 => ishex h1 && ishex h2 && validEscapes rest2
      | _ => false
    else validEscapes rest

/-- Go `validUserinfo`: letters, digits and ``-._:~!$&'()*+,;=%@``. -/
def validUserinfo (s : GoString) : Bool :=
  s.all (fun c => isAlnum c || containsByte c (str "-._:~!$&\x27()*+,;=%@"))

/-- Whether Go `parseAuthority(authority)` returns no error and an empty host. The host
is the text after the last `@`; `parseHost` returns an empty host only for an empty
text, and then without error. The userinfo before the `@` must pass `validUserinfo`
and unescape without error, as a whole or as the two sides of its first colon. -/
def hostlessAuthority (authority : GoString) : Bool :=
  match lastIndexByte 64 authority with
  | none => authority == []
  | some i =>
    authority.drop (i + 1) == [] && validUserinfo (authority.take i) &&
      (if containsByte 58 (authority.take i) then
        validEscapes (cut 58 (authority.take i)).1 && validEscapes (cut 58 (authority.take i)).2
      else validEscapes (authority.take i))

/-- Whether Go `url.Parse(rawURL)` returns no error and a URL whose `Scheme` and `Host`
are both empty, the test `http.Redirect` makes of its target. `Parse` cuts the fragment
off at the first `#`; `parse` rejects control bytes, accepts `*`, splits off the scheme
(`getScheme`) and the query, rejects a first path segment with a colon in a reference
without scheme, reads an authority after a leading `//` (not `///`), and unescapes the
path; `setFragment` unescapes the fragment. A reference with a scheme is either
rejected or has a non-empty `Scheme`. -/
def isRelativeReference (rawURL : GoString) : Bool :=
  let u := (cut 35 rawURL).1
  let frag := (cut 35 rawURL).2
  let parsed :=
    if stringContainsCTLByte u then false
    else if u = str "*" then true
    else
      match getScheme u with
      | none => false
      | some (scheme, rest0) =>
        if scheme ≠ [] then false
        else
          let rest := (cut 63 rest0).1
          if !hasPrefix rest (str "/") && containsByte 58 (cut 47 rest).1 then false
          else if !hasPrefix rest (str "///") && hasPrefix rest (str "//") then
            hostlessAuthority (cut 47 (rest.drop 2)).1 &&
              validEscapes
                (if containsByte 47 (rest.drop 2) then 47 :: (cut 47 (rest.drop 2)).2 else [])
          else validEscapes rest
  parsed && (frag == [] || validEscapes frag)

end url

/-! ## `path` -/

namespace path

/-- Go `path.Split`: the text up to and including the last slash, and the text after
it. -/
def Split (p : GoString) : GoString × GoString :=
  match lastIndexByte 47 p with
  | some i => (p.take (i + 1), p.drop (i + 1))
  | none => ([], p)

/-- One element of the loop of Go `path.Clean`, on the elements written so far (last
element first): empty and `.` elements are dropped; `..` removes the last element when
there is one that is not itself `..`, is dropped at the root of a rooted path, and is
written otherwise; any other element is written. -/
def cleanStep (rooted : Bool) (out : List GoString) (elem : GoString) : List GoString :=
  if elem = [] ∨ elem = str "." then out
  else if elem = str ".." then
    match out with
    | [] => if rooted then [] else [str ".."]
    | top :: below => if top = str ".." then (if rooted then out else str ".." :: out) else below
  else elem :: out

/-- Go `path.Clean`, element by element: the elements that remain are joined by single
slashes, after a leading slash when the path is rooted; an empty result is `.`. -/
def Clean (p : GoString) : GoString :=
  let rooted := p.head? == some 47
  let out := ((url.splitOn 47 p).foldl (cleanStep rooted) []).reverse
  if rooted then 47 :: join (str "/") out
  else if out = [] then str "." else join (str "/") out

end path

/-! ## `net/http`: requests, cookies, responses -/

namespace http

/-- An inbound request, after `net/http` has parsed it: the method, the path
`r.URL.Path`, the pairs of the `Cookie` header in order, and the entries of `r.Form` in
the order `FormValue` consults them (body parameters before URL query parameters). -/
structure Request where
  Method : GoString
  Path : GoString
  cookies : List (GoString × GoString)
  form : List (GoString × GoString)

/-- The message of `http.ErrNoCookie`. -/
def ErrNoCookie : GoString := str "http: named cookie not present"

/-- Go `(*Request).Cookie`: the value of the first cookie of that name. -/
def Request.Cookie (r : Request) (name : GoString) : Except GoString GoString :=
  match r.cookies.find? (fun c => c.1 == name) with
  | some c => .ok c.2
  | none => .error ErrNoCookie

/-- Go `(*Request).FormValue`: the first value of the key, the empty string when the key
is absent. -/
def Request.FormValue (r : Request) (key : GoString) : GoString :=
  match r.form.find? (fun p => p.1 == key) with
  | some p => p.2
  | none => []

/-- Go `http.Cookie`, the fields `main.go` sets. `Expires` is in seconds. -/
structure Cookie where
  Name : GoString
  Value : GoString
  Expires : Nat
  deriving DecidableEq

/-- The response as the handler leaves it: status, `Location` header, `Set-Cookie`
headers as they go on the wire, the bytes the handler itself wrote to the body with
`fmt.Fprintf`, and the short HTML note that `http.Redirect` writes to the body of a
redirect. No handler of `main.go` writes both a note and a body. -/
structure Response where
  status : Nat
  location : Option GoString
  setCookie : List Cookie
  body : GoString
  note : GoString
  deriving DecidableEq

/-- A fresh `ResponseWriter`: nothing written, status 200 unless a header is written. -/
def Response.fresh : Response :=
  { status := 200, location := none, setCookie := [], body := [], note := [] }

/-- The constant `http.StatusTemporaryRedirect`. -/
def StatusTemporaryRedirect : Nat := 307

/-- Go `validCookieValueByte`. -/
def validCookieValueByte (b : Byte) : Bool :=
  32 ≤ b.val && b.val < 127 && b != 34 && b != 59 && b != 92

/-- Go `sanitizeCookieValue` (cookie not marked `Quoted`): invalid bytes are dropped, and
a value with a space or a comma is wrapped in double quotes. -/
def sanitizeCookieValue (v : GoString) : GoString :=
  let v1 := v.filter validCookieValueByte
  if v1 = [] then v1
  else if containsByte 32 v1 || containsByte 44 v1 then [34] ++ v1 ++ [34]
  else v1

/-- Token bytes of RFC 7230, the bytes allowed in a cookie name. -/
def isTokenByte (c : Byte) : Bool := url.isAlnum c || containsByte c (str "!#$%&*+-.^_|~\x27\x60")

/-- Go `isCookieNameValid`. -/
def isCookieNameValid (name : GoString) : Bool := name != [] && name.all isTokenByte

/-- Go `http.SetCookie`: adds a `Set-Cookie` header, with the value sanitized, unless the
cookie name is invalid. -/
def SetCookie (w : Response) (c : Cookie) : Response :=
  if isCookieNameValid c.Name then
    { w with setCookie := w.setCookie ++ [{ c with Value := sanitizeCookieValue c.Value }] }
  else w

/-- The table `strconv.AppendInt(b, n, 16)` reads its digits from. -/
def lowerhex : GoString := str "0123456789abcdef"

/-- One byte of Go `hexEscapeNonASCII`: a byte from `0x80` on becomes `%` and its two
lower-case hex digits. -/
def hexEscapeByte (c : Byte) : GoString :=
  if 128 ≤ c.val then [37, lowerhex.getD (c.val / 16) 0, lowerhex.getD (c.val % 16) 0]
  else [c]

/-- Go `hexEscapeNonASCII`. -/
def hexEscapeNonASCII (s : GoString) : GoString := s.flatMap hexEscapeByte

/-- Go `htmlEscape`, the replacer of `&`, `<`, `>`, `"` and `'`. -/
def htmlEscape (s : GoString) : GoString :=
  s.flatMap (fun c =>
    if c = 38 then str "&amp;"
    else if c = 60 then str "&lt;"
    else if c = 62 then str "&gt;"
    else if c = 34 then str "&#34;"
    else if c = 39 then str "&#39;"
    else [c])

/-- Go `http.StatusText` on the redirect codes; a code outside them is not in this
excerpt and gives the empty text. -/
def StatusText (code : Nat) : GoString :=
  if code = 301 then str "Moved Permanently"
  else if code = 302 then str "Found"
  else if code = 303 then str "See Other"
  else if code = 307 then str "Temporary Redirect"
  else if code = 308 then str "Permanent Redirect"
  else []

/-- The target of Go `http.Redirect` after its first block: a target that parses as a
reference without scheme and host is made absolute. Unless it starts with a slash it is
put after the directory of the request path (`/` for an empty request path); the part
before its first `?` is cleaned with `path.Clean`, keeping a trailing slash; the rest,
from the `?` on, is put back. -/
def resolveTarget (r : Request) (target : GoString) : GoString :=
  if url.isRelativeReference target then
    let oldpath := if r.Path = [] then str "/" else r.Path
    let url1 :=
      if target = [] ∨ target.head? ≠ some 47 then (path.Split oldpath).1 ++ target
      else target
    let query := if containsByte 63 url1 then 63 :: (url.cut 63 url1).2 else []
    let url2 := (url.cut 63 url1).1
    let url3 := path.Clean url2
    let url4 :=
      if hasSuffix url2 (str "/") && !hasSuffix url3 (str "/") then url3 ++ str "/" else url3
    url4 ++ query
  else target

/-- Go `http.Redirect(w, r, target, code)` on a writer without `Content-Type` header, as
in both handlers: the `Location` header is the resolved target with its non-ASCII bytes
escaped, the status is `code`, and for a `GET` request the body receives the note
`<a href="...">StatusText</a>.` followed by two line feeds. -/
def Redirect (w : Response) (r : Request) (target : GoString) (code : Nat) : Response :=
  { w with
    status := code
    location := some (hexEscapeNonASCII (resolveTarget r target))
    note :=
      if r.Method = str "GET" then
        str "<a href=\x22" ++ htmlEscape (resolveTarget r target) ++ str "\x22>" ++
          StatusText code ++ str "</a>.\n\n"
      else [] }

/-- Writing `s` to the body (`fmt.Fprintf(w, ...)`). -/
def Write (w : Response) (s : GoString) : Response := { w with body := w.body ++ s }

end http

/-! ## `golang.org/x/oauth2` -/

namespace oauth2

/-- Go `oauth2.AuthStyle`. -/
inductive AuthStyle where
  | AutoDetect
  | InParams
  | InHeader
  deriving DecidableEq

/-- Go `oauth2.Endpoint`. -/
structure Endpoint where
  AuthURL : GoString
  TokenURL : GoString
  AuthStyle : AuthStyle
  deriving DecidableEq

/-- Go `oauth2.Config`. -/
structure Config where
  ClientID : GoString
  ClientSecret : GoString
  Endpoint : Endpoint
  RedirectURL : GoString
  Scopes : List GoString
  deriving DecidableEq

/-- Go `oauth2.Token`, the access token. -/
structure Token where
  AccessToken : GoString
  deriving DecidableEq

/-- The option `oauth2.AccessTypeOffline`, as the parameter it sets. -/
def AccessTypeOffline : GoString × GoString := (str "access_type", str "offline")

/-- Go `(*Config).AuthCodeURL(state, opts...)`. -/
def Config.AuthCodeURL (c : Config) (state : GoString) (opts : List (GoString × GoString)) :
    GoString :=
  let v : url.Values := [(str "client_id", [c.ClientID]), (str "response_type", [str "code"])]
  let v := if c.RedirectURL ≠ [] then v.Set (str "redirect_uri") c.RedirectURL else v
  let v := if c.Scopes.length > 0 then v.Set (str "scope") (join (str " ") c.Scopes) else v
  let v := if state ≠ [] then v.Set (str "state") state else v
  let v := opts.foldl (fun v o => v.Set o.1 o.2) v
  c.Endpoint.AuthURL ++ (if containsByte 63 c.Endpoint.AuthURL then str "&" else str "?")
    ++ v.Encode

end oauth2

/-! ## `encoding/json` and `fmt` on `map[string]interface{}` -/

/-- A syntactically valid JSON text, as the scanner of `encoding/json` delimits it:
number literals are kept as written, string literals are unquoted, and the members of
an object are in source order (a name may repeat). -/
inductive JValue where
  | null
  | bool (b : Bool)
  | number (lit : GoString)
  | string (s : GoString)
  | array (elems : List JValue)
  | object (members : List (GoString × JValue))

/-- The Go values `json.Unmarshal` stores in an `interface{}`: `nil`, `bool`, `float64`
(by its 64 bits), `string`, `[]interface{}` and `map[string]interface{}`. -/
inductive GoValue where
  | nil
  | bool (b : Bool)
  | float64 (bits : Nat)
  | string (s : GoString)
  | slice (elems : List GoValue)
  | map (m : List (GoString × GoValue))

/-- Go `map[string]interface{}`. -/
abbrev GoMap := StrMap GoValue

namespace json

mutual
/-- Go `(*decodeState).valueInterface` / `literalInterface`: the value stored for a JSON
value, and whether an error was saved on the way. `parseFloat` is
`strconv.ParseFloat(lit, 64)`; a literal it rejects (out of range) saves an
`UnmarshalTypeError` and leaves `nil`. -/
def valueInterface (parseFloat : GoString → Option Nat) : JValue → GoValue × Bool
  | .null => (.nil, false)
  | .bool b => (.bool b, false)
  | .number lit =>
    match parseFloat lit with
    | some f => (.float64 f, false)
    | none => (.nil, true)
  | .string s => (.string s, false)
  | .array elems =>
    (.slice (arrayInterface parseFloat elems).1, (arrayInterface parseFloat elems).2)
  | .object members =>
    (.map (objectInterface parseFloat members []).1, (objectInterface parseFloat members []).2)
/-- Go `(*decodeState).arrayInterface`. -/
def arrayInterface (parseFloat : GoString → Option Nat) : List JValue → List GoValue × Bool
  | [] => ([], false)
  | x :: rest =>
    ((valueInterface parseFloat x).1 :: (arrayInterface parseFloat rest).1,
      (valueInterface parseFloat x).2 || (arrayInterface parseFloat rest).2)
/-- Go `(*decodeState).objectInterface`, and the member loop of `(*decodeState).object` on
a `map[string]interface{}`: each member is decoded and assigned, `m[key] = value`, in
source order, into the map built so far. -/
def objectInterface (parseFloat : GoString → Option Nat) :
    List (GoString × JValue) → GoMap → GoMap × Bool
  | [], m => (m, false)
  | (k, x) :: rest, m =>
    ((objectInterface parseFloat rest (StrMap.set k (valueInterface parseFloat x).1 m)).1,
      (valueInterface parseFloat x).2 ||
        (objectInterface parseFloat rest (StrMap.set k (valueInterface parseFloat x).1 m)).2)
end

/-- Go `json.Unmarshal(data, &userInfo)` for `var userInfo map[string]interface{}`
(initially nil): the map afterwards (`none` is the nil map) and whether an error is
returned. `scan` is the syntax check and tokenisation of the text. Invalid text leaves
the map untouched; `null` sets it to nil without error; any other non-object value is an
`UnmarshalTypeError` and leaves the map untouched. -/
def Unmarshal (scan : GoString → Option JValue) (parseFloat : GoString → Option Nat)
    (data : GoString) : Option GoMap × Bool :=
  match scan data with
  | none => (none, true)
  | some (.object members) =>
    (some (objectInterface parseFloat members []).1, (objectInterface parseFloat members []).2)
  | some .null => (none, false)
  | some _ => (none, true)

end json

namespace fmt

mutual
/-- Go `(*pp).printValue(v, 's', depth)` for `depth > 0`, on the values of `GoValue`:
strings are written as they are, `nil` as `<nil>`, slices as `[a b]`, maps as
`map[k:v k:v]` with the keys sorted; `%s` is a bad verb for `bool` and `float64`, which
are written `%!s(bool=true)` and `%!s(float64=...)`. `formatFloat` is the `%v` text of a
`float64`. -/
def printValue (formatFloat : Nat → GoString) : GoValue → GoString
  | .nil => str "<nil>"
  | .bool b => str "%!s(bool=" ++ (if b then str "true" else str "false") ++ str ")"
  | .float64 f => str "%!s(float64=" ++ formatFloat f ++ str ")"
  | .string s => s
  | .slice elems => str "[" ++ printElems formatFloat elems ++ str "]"
  | .map m => str "map[" ++ printEntries formatFloat m ++ str "]"
/-- The elements of a slice, separated by spaces. -/
def printElems (formatFloat : Nat → GoString) : List GoValue → GoString
  | [] => []
  | [x] => printValue formatFloat x
  | x :: y :: rest => printValue formatFloat x ++ str " " ++ printElems formatFloat (y :: rest)
/-- The entries of a map, `key:value`, separated by spaces. -/
def printEntries (formatFloat : Nat → GoString) : List (GoString × GoValue) → GoString
  | [] => []
  | [(k, v)] => k ++ str ":" ++ printValue formatFloat v
  | (k, v) :: e :: rest =>
    k ++ str ":" ++ printValue formatFloat v ++ str " " ++ printEntries formatFloat (e :: rest)
end

/-- Go `fmt.Sprintf("%s", m)` for `m` of type `map[string]interface{}`; the nil map
prints as the empty map. -/
def sprintMap (formatFloat : Nat → GoString) (m : Option GoMap) : GoString :=
  printValue formatFloat (.map (m.getD []))

end fmt

/-! ## The world around the handlers -/

/-- Go `http.Response` of the userinfo request: the status code, and what
`io.ReadAll(resp.Body)` returns. -/
structure HttpResponse where
  StatusCode : Nat
  Body : Except GoString GoString

/-- What the handlers read from or call outside the process. Errors are carried by their
message (`err.Error()`). -/
structure World where
  /-- The function `os.Getenv`. -/
  getenv : GoString → GoString
  /-- The result of `time.Now()`, in seconds. -/
  now : Nat
  /-- The call `conf.Exchange(ctx, code)`: the request to the token endpoint. -/
  Exchange : oauth2.Config → GoString → Except GoString oauth2.Token
  /-- The call `conf.Client(ctx, token).Get(url)`: the bearer-authenticated request. -/
  Get : oauth2.Config → oauth2.Token → GoString → Except GoString HttpResponse
  /-- The syntax check and tokenisation of `encoding/json`. -/
  scan : GoString → Option JValue
  /-- The function `strconv.ParseFloat(lit, 64)`, `none` when it returns an error. -/
  parseFloat : GoString → Option Nat
  /-- The `%v` text of a `float64`. -/
  formatFloat : Nat → GoString

/-- An outbound call to the identity provider. -/
inductive Call where
  | token (tokenURL : GoString) (code : GoString)
  | userinfo (url : GoString)
  deriving DecidableEq

/-- What a handler did: its response, the lines it logged, its outbound calls. -/
structure Outcome where
  resp : http.Response
  log : List GoString
  calls : List Call
  deriving DecidableEq

/-! ## `main.go` -/

/-- Go `UaaConfig`. -/
structure UaaConfig where
  UaaClientId : GoString
  UaaClientSecret : GoString
  BaseUrl : GoString
  AuthUrl : GoString
  deriving DecidableEq

/-- Go `getUaaConfig`. -/
def getUaaConfig (W : World) : UaaConfig :=
  { UaaClientId := W.getenv (str "UAA_CLIENT_ID")
    UaaClientSecret := W.getenv (str "UAA_CLIENT_SECRET")
    BaseUrl := W.getenv (str "UAA_BASE_URL")
    AuthUrl := W.getenv (str "UAA_AUTH_URL") }

/-- Go `getOauthConfig`. -/
def getOauthConfig (uaaConfig : UaaConfig) : oauth2.Config :=
  { RedirectURL := str "http://localhost:3000/auth/cloudfoundry/callback"
    ClientID := uaaConfig.UaaClientId
    ClientSecret := uaaConfig.UaaClientSecret
    Scopes := [str ""]
    Endpoint :=
      { TokenURL := uaaConfig.BaseUrl ++ str "/oauth/token"
        AuthURL := uaaConfig.AuthUrl
        AuthStyle := oauth2.AuthStyle.InHeader } }

/-- Go `generateStateOauthCookie`; `b` is the buffer after `rand.Read(b)`. Returns the
writer with the cookie set, and the state. -/
def generateStateOauthCookie (W : World) (b : List Byte) (w : http.Response) :
    http.Response × GoString :=
  let expiration := W.now + 20 * 60
  let state := base64.EncodeToString b
  let cookie : http.Cookie := { Name := str "oauthstate", Value := state, Expires := expiration }
  (http.SetCookie w cookie, state)

/-- Go `getUserData`: the returned pair `(userInfo, err)` as an `Except` (the nil map is
`none`), and the outbound calls made. -/
def getUserData (W : World) (code : GoString) : Except GoString (Option GoMap) × List Call :=
  let uaaConfig := getUaaConfig W
  let conf := getOauthConfig uaaConfig
  match W.Exchange conf code with
  | .error err =>
    (.error (str "code exchange wrong: " ++ err), [Call.token conf.Endpoint.TokenURL code])
  | .ok token =>
    match W.Get conf token (uaaConfig.BaseUrl ++ str "/userinfo") with
    | .error err =>
      (.error (str "failed to get user info: " ++ err),
        [Call.token conf.Endpoint.TokenURL code,
          Call.userinfo (uaaConfig.BaseUrl ++ str "/userinfo")])
    | .ok resp =>
      match resp.Body with
      | .error err =>
        (.error (str "failed read response: " ++ err),
          [Call.token conf.Endpoint.TokenURL code,
            Call.userinfo (uaaConfig.BaseUrl ++ str "/userinfo")])
      | .ok data =>
        (.ok (json.Unmarshal W.scan W.parseFloat data).1,
          [Call.token conf.Endpoint.TokenURL code,
            Call.userinfo (uaaConfig.BaseUrl ++ str "/userinfo")])

/-- Go `oauthCfLogin`; `b` is the buffer `generateStateOauthCookie` fills from
`crypto/rand`. -/
def oauthCfLogin (W : World) (b : List Byte) (r : http.Request) : Outcome :=
  let conf := getOauthConfig (getUaaConfig W)
  let (w, oauthState) := generateStateOauthCookie W b http.Response.fresh
  let url := conf.AuthCodeURL oauthState [oauth2.AccessTypeOffline]
  { resp := http.Redirect w r url http.StatusTemporaryRedirect
    log := [str "Redirecting to " ++ url]
    calls := [] }

/-- Go `test`, the handler of `/`. -/
def test (W : World) (b : List Byte) (r : http.Request) : Outcome := oauthCfLogin W b r

/-- Go `oauthCfCallback`. -/
def oauthCfCallback (W : World) (r : http.Request) : Outcome :=
  match r.Cookie (str "oauthstate") with
  | .error err =>
    { resp := http.Redirect http.Response.fresh r (str "/") http.StatusTemporaryRedirect
      log := [str "Reached callback", err]
      calls := [] }
  | .ok oauthState =>
    if r.FormValue (str "state") ≠ oauthState then
      { resp := http.Redirect http.Response.fresh r (str "/") http.StatusTemporaryRedirect
        log := [str "Reached callback", str "invalid oauth state"]
        calls := [] }
    else
      match getUserData W (r.FormValue (str "code")) with
      | (.error err, calls) =>
        { resp := http.Redirect http.Response.fresh r (str "/") http.StatusTemporaryRedirect
          log := [str "Reached callback", err]
          calls := calls }
      | (.ok userInfo, calls) =>
        { resp := http.Write http.Response.fresh
            (str "user info: " ++ fmt.sprintMap W.formatFloat userInfo ++ str "\n")
          log := [str "Reached callback"]
          calls := calls }

/-! ## Notions used to state the properties -/

namespace base64

/-- A byte of the URL-safe alphabet `A-Z a-z 0-9 - _`. -/
def isAlphabet (c : Byte) : Bool := url.isAlnum c || c == 45 || c == 95

end base64

namespace url

/-- The bytes `QueryEscape` can produce: letters, digits and `-` `_` `.` `~` `%` `+`. -/
def isEscaped (c : Byte) : Bool :=
  isAlnum c || c == 45 || c == 95 || c == 46 || c == 126 || c == 37 || c == 43

/-- The raw query of a URL as `url.Parse` delimits it: the fragment is cut off at the first
`#`, and the query is what follows the first `?` of the rest. -/
def rawQuery (u : GoString) : GoString := (cut 63 (cut 35 u).1).2

end url

namespace StrMap

/-- The keys are strictly increasing: the list is the canonical form of a Go map. -/
def ordered {α : Type} : StrMap α → Bool
  | [] => true
  | [_] => true
  | (k1, _) :: (k2, v2) :: m => strLt k1 k2 && ordered ((k2, v2) :: m)

end StrMap

namespace json

mutual
/-- Every number literal of the JSON value is accepted by `parseFloat`. -/
def numbersFit (parseFloat : GoString → Option Nat) : JValue → Bool
  | .null => true
  | .bool _ => true
  | .number lit => (parseFloat lit).isSome
  | .string _ => true
  | .array elems => numbersFitAll parseFloat elems
  | .object members => numbersFitMembers parseFloat members
/-- The elements of an array all fit. -/
def numbersFitAll (parseFloat : GoString → Option Nat) : List JValue → Bool
  | [] => true
  | x :: rest => numbersFit parseFloat x && numbersFitAll parseFloat rest
/-- The member values of an object all fit. -/
def numbersFitMembers (parseFloat : GoString → Option Nat) : List (GoString × JValue) → Bool
  | [] => true
  | (_, x) :: rest => numbersFit parseFloat x && numbersFitMembers parseFloat rest
end

mutual
/-- The Go value `g` is the JSON value `j`: `null` is `nil`, booleans and strings are
themselves, a number is the `float64` its literal denotes, an array is the slice of its
elements in order, and an object is a map in canonical form whose keys are exactly the
member names and that holds under each name the value of the last member of that
name. -/
def represents (parseFloat : GoString → Option Nat) : JValue → GoValue → Bool
  | .null, .nil => true
  | .bool a, .bool b => a == b
  | .number lit, .float64 f => parseFloat lit == some f
  | .string s, .string t => s == t
  | .array elems, .slice gs => representsAll parseFloat elems gs
  | .object members, .map m =>
    representsMembers parseFloat members m &&
      (m.all (fun e => members.any (fun p => p.1 == e.1)) && StrMap.ordered m)
  | _, _ => false
/-- Elementwise `represents`. -/
def representsAll (parseFloat : GoString → Option Nat) : List JValue → List GoValue → Bool
  | [], [] => true
  | x :: rest, g :: gs => represents parseFloat x g && representsAll parseFloat rest gs
  | _, _ => false
/-- Every member that is the last of its name is held by the map under that name. -/
def representsMembers (parseFloat : GoString → Option Nat) :
    List (GoString × JValue) → GoMap → Bool
  | [], _ => true
  | (k, x) :: rest, m =>
    (rest.any (fun p => p.1 == k) ||
      (match StrMap.get k m with
       | some g => represents parseFloat x g
       | none => false)) && representsMembers parseFloat rest m
end

end json

/-- The parameters `oauthCfLogin` asks `AuthCodeURL` to append to the authorization URL,
as the query text `Encode` writes. -/
def authorizeQuery (c : UaaConfig) (state : GoString) : GoString :=
  url.Values.Encode
    [(str "access_type", [str "offline"]), (str "client_id", [c.UaaClientId]),
      (str "redirect_uri", [str "http://localhost:3000/auth/cloudfoundry/callback"]),
      (str "response_type", [str "code"]), (str "scope", [[]]), (str "state", [state])]

/-- The failures of the callback handler that the specification names. -/
inductive Failure where
  | MissingState
  | StateMismatch
  | ExchangeFailed
  | ProfileFetchFailed
  deriving DecidableEq

/-- The step of the callback state machine of the specification at which a request
fails, if any: (1) no state cookie, (2) `state` differs from the cookie, (3) the code
exchange fails, (4) the profile fetch, or the reading of its body, fails. -/
def callbackFailure (W : World) (r : http.Request) : Option Failure :=
  match r.Cookie (str "oauthstate") with
  | .error _ => some .MissingState
  | .ok v =>
    if r.FormValue (str "state") ≠ v then some .StateMismatch
    else
      match W.Exchange (getOauthConfig (getUaaConfig W)) (r.FormValue (str "code")) with
      | .error _ => some .ExchangeFailed
      | .ok token =>
        match W.Get (getOauthConfig (getUaaConfig W)) token
            ((getUaaConfig W).BaseUrl ++ str "/userinfo") with
        | .error _ => some .ProfileFetchFailed
        | .ok resp =>
          match resp.Body with
          | .error _ => some .ProfileFetchFailed
          | .ok _ => none

/-- The response of every failure: a temporary redirect to the root path, no cookie, no
body written by the handler, and the fixed note of `http.Redirect` when the request is
a `GET`. -/
def redirectToRoot (r : http.Request) : http.Response :=
  { status := 307, location := some (str "/"), setCookie := [], body := []
    note :=
      if r.Method = str "GET" then str "<a href=\x22/\x22>Temporary Redirect</a>.\n\n" else [] }

/-! ## Sample worlds and requests -/

/-- A sample environment. -/
def sampleEnv (k : GoString) : GoString :=
  if k = str "UAA_CLIENT_ID" then str "dash board"
  else if k = str "UAA_CLIENT_SECRET" then str "s3cret"
  else if k = str "UAA_BASE_URL" then str "https://uaa.example"
  else if k = str "UAA_AUTH_URL" then str "https://login.example/oauth/authorize"
  else []

/-- A finite excerpt of the scanner of `encoding/json`: four texts and their values; a
text outside the excerpt counts as invalid. -/
def sampleScan (data : GoString) : Option JValue :=
  if data = str "\x7b\x22sub\x22:\x22u1\x22,\x22admin\x22:true,\x22n\x22:7\x7d" then
    some (.object [(str "sub", .string (str "u1")), (str "admin", .bool true),
      (str "n", .number (str "7"))])
  else if data = str "\x7b\x22n\x22:1e999\x7d" then
    some (.object [(str "n", .number (str "1e999"))])
  else if data = str "[1]" then some (.array [.number (str "1")])
  else if data = str "null" then some .null
  else none

/-- A finite excerpt of `strconv.ParseFloat(lit, 64)`: `7` and `1` give the bits of
`7.0` and `1.0`; `1e999` is out of the range of `float64` and is rejected, as is every
literal outside the excerpt. -/
def sampleParseFloat (lit : GoString) : Option Nat :=
  if lit = str "7" then some 0x401C000000000000
  else if lit = str "1" then some 0x3FF0000000000000
  else none

/-- A sample provider: it accepts the code `good`, and its userinfo endpoint answers with
the given status and body. -/
def sampleWorld (status : Nat) (body : GoString) : World :=
  { getenv := sampleEnv
    now := 1000
    Exchange := fun _ code =>
      if code = str "good" then .ok { AccessToken := str "tok" } else .error (str "invalid_grant")
    Get := fun _ _ _ => .ok { StatusCode := status, Body := .ok body }
    scan := sampleScan
    parseFloat := sampleParseFloat
    formatFloat := fun bits => if bits = 0x401C000000000000 then str "7" else str "1" }

/-- A sample provider whose userinfo request fails in transport. -/
def sampleWorldDown : World :=
  { sampleWorld 200 [] with Get := fun _ _ _ => .error (str "connection refused") }

/-- A `GET` request to the callback route with the given cookies and form entries. -/
def sampleRequest (cookies form : List (GoString × GoString)) : http.Request :=
  { Method := str "GET", Path := str "/auth/cloudfoundry/callback", cookies := cookies,
    form := form }

/-- A `GET` request to the login route. -/
def sampleLogin : http.Request :=
  { Method := str "GET", Path := str "/auth/cloudfoundry/login", cookies := [], form := [] }

/-- The `Location` of the login redirect at the sample bytes when the authorization URL
is `https://login.example/oauth/authorize#login`. -/
def sampleFragmentLocation : GoString :=
  str "https://login.example/oauth/authorize#login?access_type=offline" ++
    str "&client_id=dash+board" ++
    str "&redirect_uri=http%3A%2F%2Flocalhost%3A3000%2Fauth%2Fcloudfoundry%2Fcallback" ++
    str "&response_type=code&scope=&state=__79_Pv6-fgAAQIDBAU-Pw%3D%3D"

/-- The sample world with another authorization URL in its environment. -/
def sampleWorldWithAuthUrl (authUrl : GoString) : World :=
  { sampleWorld 200 [] with
    getenv := fun k => if k = str "UAA_AUTH_URL" then authUrl else sampleEnv k }

/-- Sixteen sample bytes. -/
def sampleBytes : List Byte := [255, 254, 253, 252, 251, 250, 249, 248, 0, 1, 2, 3, 4, 5, 62, 63]

/-! ## Facts about `base64.URLEncoding` -/

theorem decodeMap_encode : ∀ i : Fin 64, base64.decodeMap (base64.encode i.val) = some i.val := by
  decide

theorem encode_ne_pad : ∀ i : Fin 64, base64.encode i.val ≠ base64.padChar := by decide

theorem encode_isAlphabet : ∀ i : Fin 64, base64.isAlphabet (base64.encode i.val) = true := by
  decide

theorem decodeMap_encode_lt (i : Nat) (h : i < 64) :
    base64.decodeMap (base64.encode i) = some i :=
  decodeMap_encode ⟨i, h⟩

theorem encode_ne_pad_lt (i : Nat) (h : i < 64) : base64.encode i ≠ base64.padChar :=
  encode_ne_pad ⟨i, h⟩

theorem and63 (x : Nat) : x &&& 0x3F = x % 64 := Nat.and_pow_two_sub_one_eq_mod x 6

theorem encode_mask_isAlphabet (x : Nat) :
    base64.isAlphabet (base64.encode (x &&& 0x3F)) = true := by
  rw [and63]
  exact encode_isAlphabet ⟨x % 64, Nat.mod_lt _ (by decide)⟩

theorem or_shift (a b k : Nat) (hb : b < 2 ^ k) : (a <<< k) ||| b = a * 2 ^ k + b := by
  rw [Nat.shiftLeft_eq, Nat.mul_comm a, ← Nat.mul_add_lt_is_or hb]

theorem pack2 (a b : Nat) (hb : b < 256) : (a <<< 16) ||| (b <<< 8) = a * 65536 + b * 256 := by
  have h : b <<< 8 < 2 ^ 16 := by rw [Nat.shiftLeft_eq]; omega
  rw [or_shift a _ 16 h, Nat.shiftLeft_eq]; omega

theorem pack3 (a b c : Nat) (hb : b < 256) (hc : c < 256) :
    (a <<< 16) ||| (b <<< 8) ||| c = a * 65536 + b * 256 + c := by
  rw [pack2 a b hb]
  have h : a * 65536 + b * 256 = (a * 256 + b) <<< 8 := by rw [Nat.shiftLeft_eq]; omega
  rw [h, or_shift _ c 8 (by omega)]; omega

theorem unpack2 (i j : Nat) (hj : j < 64) :
    (i <<< 18) ||| (j <<< 12) = i * 262144 + j * 4096 := by
  have h : j <<< 12 < 2 ^ 18 := by rw [Nat.shiftLeft_eq]; omega
  rw [or_shift i _ 18 h, Nat.shiftLeft_eq]; omega

theorem unpack3 (i j k : Nat) (hj : j < 64) (hk : k < 64) :
    (i <<< 18) ||| (j <<< 12) ||| (k <<< 6) = i * 262144 + j * 4096 + k * 64 := by
  rw [unpack2 i j hj]
  have h : i * 262144 + j * 4096 = (i * 64 + j) <<< 12 := by rw [Nat.shiftLeft_eq]; omega
  have h2 : k <<< 6 < 2 ^ 12 := by rw [Nat.shiftLeft_eq]; omega
  rw [h, or_shift _ _ 12 h2, Nat.shiftLeft_eq]; omega

theorem unpack4 (i j k l : Nat) (hj : j < 64) (hk : k < 64) (hl : l < 64) :
    (i <<< 18) ||| (j <<< 12) ||| (k <<< 6) ||| l = i * 262144 + j * 4096 + k * 64 + l := by
  rw [unpack3 i j k hj hk]
  have h : i * 262144 + j * 4096 + k * 64 = (i * 4096 + j * 64 + k) <<< 6 := by
    rw [Nat.shiftLeft_eq]; omega
  rw [h, or_shift _ l 6 (by omega)]; omega

theorem toByte_val (a : Byte) (x : Nat) (h : x % 256 = a.val) : base64.toByte x = a := by
  apply Fin.ext
  simp [base64.toByte, Fin.ofNat, h]

theorem shifts (v : Nat) :
    v >>> 18 = v / 262144 ∧ v >>> 12 = v / 4096 ∧ v >>> 6 = v / 64 ∧
    v >>> 16 = v / 65536 ∧ v >>> 8 = v / 256 := by
  simp only [Nat.shiftRight_eq_div_pow]
  norm_num

/-- Decoding undoes encoding, for input of every length. -/
theorem DecodeString_EncodeToString (b : List Byte) :
    base64.DecodeString (base64.EncodeToString b) = some b := by
  induction b using base64.EncodeToString.induct with
  | case1 => rfl
  | case2 a =>
    have ha := a.isLt
    simp only [base64.EncodeToString, base64.DecodeString, and63, shifts,
      Nat.shiftLeft_eq a.val 16]
    simp only [true_and, and_self, if_true]
    rw [decodeMap_encode_lt _ (Nat.mod_lt _ (by decide)),
      decodeMap_encode_lt _ (Nat.mod_lt _ (by decide))]
    simp only
    rw [unpack2 _ _ (Nat.mod_lt _ (by decide))]
    congr 1; congr 1
    apply toByte_val
    omega
  | case3 a b =>
    have ha := a.isLt
    have hb := b.isLt
    simp only [base64.EncodeToString, base64.DecodeString, and63, shifts,
      pack2 a.val b.val b.isLt]
    have h2 := encode_ne_pad_lt ((a.val * 65536 + b.val * 256) / 64 % 64)
      (Nat.mod_lt _ (by decide))
    simp only [h2, false_and, if_false, true_and, and_self, if_true]
    rw [decodeMap_encode_lt _ (Nat.mod_lt _ (by decide)),
      decodeMap_encode_lt _ (Nat.mod_lt _ (by decide)),
      decodeMap_encode_lt _ (Nat.mod_lt _ (by decide))]
    simp only
    rw [unpack3 _ _ _ (Nat.mod_lt _ (by decide)) (Nat.mod_lt _ (by decide))]
    congr 1; congr 1
    · apply toByte_val; omega
    · congr 1; apply toByte_val; omega
  | case4 a b c rest ih =>
    have ha := a.isLt
    have hb := b.isLt
    have hc := c.isLt
    simp only [base64.EncodeToString, base64.DecodeString, and63, shifts,
      pack3 a.val b.val c.val b.isLt c.isLt]
    have h3 := encode_ne_pad_lt ((a.val * 65536 + b.val * 256 + c.val) % 64)
      (Nat.mod_lt _ (by decide))
    simp only [h3, false_and, and_false, if_false]
    rw [decodeMap_encode_lt _ (Nat.mod_lt _ (by decide)),
      decodeMap_encode_lt _ (Nat.mod_lt _ (by decide)),
      decodeMap_encode_lt _ (Nat.mod_lt _ (by decide)),
      decodeMap_encode_lt _ (Nat.mod_lt _ (by decide)), ih]
    simp only
    rw [unpack4 _ _ _ _ (Nat.mod_lt _ (by decide)) (Nat.mod_lt _ (by decide))
      (Nat.mod_lt _ (by decide))]
    congr 1; congr 1
    · apply toByte_val; omega
    · congr 1
      · apply toByte_val; omega
      · congr 1; apply toByte_val; omega

/-- Encoding is injective. -/
theorem EncodeToString_injective (b1 b2 : List Byte)
    (h : base64.EncodeToString b1 = base64.EncodeToString b2) : b1 = b2 := by
  have h1 := DecodeString_EncodeToString b1
  rw [h, DecodeString_EncodeToString b2] at h1
  exact (Option.some.inj h1).symm

/-- An input of `3n + 1` bytes is encoded as `4n + 2` alphabet characters followed by two
padding characters. -/
theorem EncodeToString_shape (b : List Byte) (h : b.length % 3 = 1) :
    ∃ body : GoString, base64.EncodeToString b = body ++ [base64.padChar, base64.padChar] ∧
      body.length = b.length / 3 * 4 + 2 ∧ body.all base64.isAlphabet = true := by
  induction b using base64.EncodeToString.induct with
  | case1 => simp at h
  | case2 a =>
    refine ⟨[base64.encode (((a.val <<< 16) >>> 18) &&& 0x3F),
      base64.encode (((a.val <<< 16) >>> 12) &&& 0x3F)], ?_, ?_, ?_⟩
    · simp [base64.EncodeToString]
    · simp
    · simp only [List.all_cons, List.all_nil, encode_mask_isAlphabet, Bool.and_self]
  | case3 a b => simp at h
  | case4 a b c rest ih =>
    have hr : rest.length % 3 = 1 := by
      simp only [List.length_cons] at h
      omega
    obtain ⟨body, hbody, hlen, hall⟩ := ih hr
    refine ⟨base64.encode ((((a.val <<< 16) ||| (b.val <<< 8) ||| c.val) >>> 18) &&& 0x3F) ::
      base64.encode ((((a.val <<< 16) ||| (b.val <<< 8) ||| c.val) >>> 12) &&& 0x3F) ::
      base64.encode ((((a.val <<< 16) ||| (b.val <<< 8) ||| c.val) >>> 6) &&& 0x3F) ::
      base64.encode (((a.val <<< 16) ||| (b.val <<< 8) ||| c.val) &&& 0x3F) :: body, ?_, ?_, ?_⟩
    · simp only [base64.EncodeToString, hbody, List.cons_append]
    · simp only [List.length_cons, hlen]
      omega
    · simp only [List.all_cons, encode_mask_isAlphabet, hall, Bool.and_self]

/-! ## Facts about `StrMap` -/

theorem strLt_total (a b : GoString) (hne : a ≠ b) (h : strLt a b = false) :
    strLt b a = true := by
  induction a generalizing b with
  | nil =>
    cases b with
    | nil => exact absurd rfl hne
    | cons y t => simp [strLt] at h
  | cons x s ih =>
    cases b with
    | nil => rfl
    | cons y t =>
      simp only [strLt] at h ⊢
      by_cases h1 : x.val < y.val
      · simp [h1] at h
      · by_cases h2 : y.val < x.val
        · simp [h2]
        · have hxy : x = y := Fin.ext (by omega)
          subst hxy
          simp only [h1, if_false] at h ⊢
          exact ih t (fun e => hne (by rw [e])) h

theorem StrMap_get_set_self {α : Type} (k : GoString) (v : α) (m : StrMap α) :
    StrMap.get k (StrMap.set k v m) = some v := by
  induction m with
  | nil => simp [StrMap.set, StrMap.get]
  | cons e m ih =>
    obtain ⟨k1, v1⟩ := e
    simp only [StrMap.set]
    by_cases h1 : k = k1
    · simp [h1, StrMap.get]
    · by_cases h2 : strLt k k1 = true
      · simp [h1, h2, StrMap.get]
      · simp [h1, h2, StrMap.get, ih]

theorem StrMap_get_set_ne {α : Type} (k k2 : GoString) (v : α) (m : StrMap α) (hne : k2 ≠ k) :
    StrMap.get k2 (StrMap.set k v m) = StrMap.get k2 m := by
  induction m with
  | nil => simp [StrMap.set, StrMap.get, hne]
  | cons e m ih =>
    obtain ⟨k1, v1⟩ := e
    simp only [StrMap.set]
    by_cases h1 : k = k1
    · subst h1
      simp [StrMap.get, hne]
    · by_cases h2 : strLt k k1 = true
      · simp [h1, h2, StrMap.get, hne]
      · simp [h1, h2, StrMap.get, ih]

theorem StrMap_mem_set {α : Type} (k : GoString) (v : α) (m : StrMap α) (e : GoString × α)
    (he : e ∈ StrMap.set k v m) : e.1 = k ∨ e ∈ m := by
  induction m with
  | nil =>
    simp only [StrMap.set, List.mem_singleton] at he
    exact Or.inl (by rw [he])
  | cons e1 m ih =>
    obtain ⟨k1, v1⟩ := e1
    simp only [StrMap.set] at he
    by_cases h1 : k = k1
    · rw [if_pos h1, List.mem_cons] at he
      rcases he with he | he
      · exact Or.inl (by rw [he])
      · exact Or.inr (List.mem_cons_of_mem _ he)
    · rw [if_neg h1] at he
      by_cases h2 : strLt k k1 = true
      · rw [if_pos h2, List.mem_cons] at he
        rcases he with he | he
        · exact Or.inl (by rw [he])
        · exact Or.inr he
      · rw [if_neg h2, List.mem_cons] at he
        rcases he with he | he
        · exact Or.inr (by rw [he]; exact List.mem_cons_self _ _)
        · rcases ih he with h | h
          · exact Or.inl h
          · exact Or.inr (List.mem_cons_of_mem _ h)

theorem StrMap_ordered_head {α : Type} (k : GoString) (v v2 : α) (m : StrMap α) :
    StrMap.ordered ((k, v) :: m) = StrMap.ordered ((k, v2) :: m) := by
  cases m with
  | nil => rfl
  | cons e m => rfl

theorem StrMap_ordered_cons_set {α : Type} (k : GoString) (v : α) (m : StrMap α)
    (k1 : GoString) (v1 : α) (h : StrMap.ordered ((k1, v1) :: m) = true)
    (hlt : strLt k1 k = true) : StrMap.ordered ((k1, v1) :: StrMap.set k v m) = true := by
  induction m generalizing k1 v1 with
  | nil => simp [StrMap.set, StrMap.ordered, hlt]
  | cons e m ih =>
    obtain ⟨k2, v2⟩ := e
    simp only [StrMap.ordered, Bool.and_eq_true] at h
    simp only [StrMap.set]
    by_cases h1 : k = k2
    · subst h1
      simp only [if_true, StrMap.ordered, Bool.and_eq_true]
      exact ⟨hlt, by rw [StrMap_ordered_head k v v2 m]; exact h.2⟩
    · by_cases h2 : strLt k k2 = true
      · rw [if_neg h1, if_pos h2]
        simp only [StrMap.ordered, Bool.and_eq_true]
        exact ⟨hlt, h2, h.2⟩
      · rw [if_neg h1, if_neg h2]
        simp only [StrMap.ordered, Bool.and_eq_true]
        refine ⟨h.1, ih k2 v2 h.2 ?_⟩
        exact strLt_total k k2 h1 (by simpa using h2)

theorem StrMap_ordered_set {α : Type} (k : GoString) (v : α) (m : StrMap α)
    (h : StrMap.ordered m = true) : StrMap.ordered (StrMap.set k v m) = true := by
  cases m with
  | nil => rfl
  | cons e m =>
    obtain ⟨k1, v1⟩ := e
    simp only [StrMap.set]
    by_cases h1 : k = k1
    · subst h1
      simp only [if_true]
      rw [StrMap_ordered_head k v v1 m]; exact h
    · by_cases h2 : strLt k k1 = true
      · rw [if_neg h1, if_pos h2]
        simp only [StrMap.ordered, Bool.and_eq_true]
        exact ⟨h2, h⟩
      · rw [if_neg h1, if_neg h2]
        exact StrMap_ordered_cons_set k v m k1 v1 h
          (strLt_total k k1 h1 (by simpa using h2))

/-! ## Facts about query escaping -/

set_option maxRecDepth 1000000 in
theorem escapeByte_cases : ∀ c : Byte,
    (url.shouldEscape c = false ∧ c ≠ 37 ∧ c ≠ 43) ∨ (url.shouldEscape c = true ∧ c = 32) ∨
    (url.shouldEscape c = true ∧ c ≠ 32 ∧ url.ishex (url.upperhex.getD (c.val >>> 4) 0) = true ∧
      url.ishex (url.upperhex.getD (c.val &&& 15) 0) = true ∧
      (Fin.ofNat (((url.unhex (url.upperhex.getD (c.val >>> 4) 0) <<< 4) |||
        url.unhex (url.upperhex.getD (c.val &&& 15) 0)) % 256) : Byte) = c) := by
  decide

set_option maxRecDepth 1000000 in
theorem escapeByte_isEscaped : ∀ c : Byte, (url.escapeByte c).all url.isEscaped = true := by
  decide

set_option maxRecDepth 1000000 in
theorem isEscaped_not_delimiter : ∀ c : Byte, url.isEscaped c = true →
    c ≠ 38 ∧ c ≠ 61 ∧ c ≠ 59 ∧ c ≠ 35 ∧ c ≠ 63 := by
  decide

theorem QueryEscape_cons (c : Byte) (s : GoString) :
    url.QueryEscape (c :: s) = url.escapeByte c ++ url.QueryEscape s := by
  simp [url.QueryEscape]

theorem QueryEscape_isEscaped (s : GoString) : (url.QueryEscape s).all url.isEscaped = true := by
  induction s with
  | nil => rfl
  | cons c s ih => rw [QueryEscape_cons, List.all_append, escapeByte_isEscaped c, ih]; rfl

theorem QueryEscape_not_mem (s : GoString) (c : Byte)
    (hc : c = 38 ∨ c = 61 ∨ c = 59 ∨ c = 35 ∨ c = 63) : c ∉ url.QueryEscape s := by
  intro hmem
  have h := List.all_eq_true.mp (QueryEscape_isEscaped s) c hmem
  obtain ⟨h1, h2, h3, h4, h5⟩ := isEscaped_not_delimiter c h
  rcases hc with hc | hc | hc | hc | hc
  · exact h1 hc
  · exact h2 hc
  · exact h3 hc
  · exact h4 hc
  · exact h5 hc

theorem QueryUnescape_cons_plain (c : Byte) (t : GoString) (h1 : c ≠ 37) (h2 : c ≠ 43) :
    url.QueryUnescape (c :: t) = (url.QueryUnescape t).map (fun u => c :: u) := by
  conv_lhs => unfold url.QueryUnescape
  simp only [if_neg h1, if_neg h2]

theorem QueryUnescape_cons_plus (t : GoString) :
    url.QueryUnescape (43 :: t) = (url.QueryUnescape t).map (fun u => (32 : Byte) :: u) := by
  conv_lhs => unfold url.QueryUnescape
  simp only [if_neg (show ¬ ((43 : Byte) = 37) by decide), if_true]

theorem QueryUnescape_cons_hex (h1 h2 : Byte) (t : GoString)
    (e1 : url.ishex h1 = true) (e2 : url.ishex h2 = true) :
    url.QueryUnescape (37 :: h1 :: h2 :: t) =
      (url.QueryUnescape t).map
        (fun u => (Fin.ofNat (((url.unhex h1 <<< 4) ||| url.unhex h2) % 256) : Byte) :: u) := by
  conv_lhs => unfold url.QueryUnescape
  simp only [e1, e2, and_self, if_true]

theorem QueryUnescape_escapeByte (c : Byte) (t : GoString) :
    url.QueryUnescape (url.escapeByte c ++ t) =
      (url.QueryUnescape t).map (fun u => c :: u) := by
  rcases escapeByte_cases c with ⟨h1, h2, h3⟩ | ⟨h1, h2⟩ | ⟨h1, h2, h3, h4, h5⟩
  · have e : url.escapeByte c = [c] := by
      simp only [url.escapeByte, h1, Bool.false_eq_true, if_false]
    rw [e, List.singleton_append, QueryUnescape_cons_plain c t h2 h3]
  · subst h2
    have e : url.escapeByte 32 = [43] := by decide
    rw [e, List.singleton_append, QueryUnescape_cons_plus]
  · have e : url.escapeByte c =
        [37, url.upperhex.getD (c.val >>> 4) 0, url.upperhex.getD (c.val &&& 15) 0] := by
      simp only [url.escapeByte, h1, if_true, h2, if_false]
    rw [e]
    show url.QueryUnescape (37 :: _ :: _ :: t) = _
    rw [QueryUnescape_cons_hex _ _ t h3 h4, h5]

theorem QueryUnescape_QueryEscape (s : GoString) :
    url.QueryUnescape (url.QueryEscape s) = some s := by
  induction s with
  | nil => rfl
  | cons c s ih => rw [QueryEscape_cons, QueryUnescape_escapeByte, ih]; rfl

/-! ## Facts about `ParseQuery` -/

theorem containsByte_false (c : Byte) (s : GoString) (h : c ∉ s) : containsByte c s = false := by
  simp only [containsByte, List.any_eq_false, beq_iff_eq]
  intro x hx e
  exact h (e ▸ hx)

theorem mem_of_containsByte_false (c : Byte) (s : GoString) (h : containsByte c s = false) :
    c ∉ s := by
  simp only [containsByte, List.any_eq_false, beq_iff_eq] at h
  intro hmem
  exact h c hmem rfl

theorem cut_append (sep : Byte) (a b : GoString) (h : sep ∉ a) :
    url.cut sep (a ++ sep :: b) = (a, b) := by
  induction a with
  | nil => simp [url.cut]
  | cons x a ih =>
    have hx : x ≠ sep := fun e => h (e ▸ List.mem_cons_self _ _)
    have ha : sep ∉ a := fun hm => h (List.mem_cons_of_mem _ hm)
    rw [List.cons_append, url.cut, if_neg hx, ih ha]

theorem cut_not_mem (sep : Byte) (a : GoString) (h : sep ∉ a) : url.cut sep a = (a, []) := by
  induction a with
  | nil => rfl
  | cons x a ih =>
    have hx : x ≠ sep := fun e => h (e ▸ List.mem_cons_self _ _)
    have ha : sep ∉ a := fun hm => h (List.mem_cons_of_mem _ hm)
    rw [url.cut, if_neg hx, ih ha]

theorem splitOn_not_mem (sep : Byte) (a : GoString) (h : sep ∉ a) : url.splitOn sep a = [a] := by
  induction a with
  | nil => rfl
  | cons x a ih =>
    have hx : x ≠ sep := fun e => h (e ▸ List.mem_cons_self _ _)
    have ha : sep ∉ a := fun hm => h (List.mem_cons_of_mem _ hm)
    rw [url.splitOn, if_neg hx, ih ha]

theorem splitOn_append (sep : Byte) (a b : GoString) (h : sep ∉ a) :
    url.splitOn sep (a ++ sep :: b) = a :: url.splitOn sep b := by
  induction a with
  | nil => simp [url.splitOn]
  | cons x a ih =>
    have hx : x ≠ sep := fun e => h (e ▸ List.mem_cons_self _ _)
    have ha : sep ∉ a := fun hm => h (List.mem_cons_of_mem _ hm)
    rw [List.cons_append, url.splitOn, if_neg hx, ih ha]

/-- The segment `key=value` that `Encode` writes for a pair is read back by one iteration
of `parseQuery` as that pair. -/
theorem parseSegment_encoded (m : url.Values) (k v : GoString) :
    url.parseSegment m (url.QueryEscape k ++ str "=" ++ url.QueryEscape v) = m.Add k v := by
  have hseg : url.QueryEscape k ++ str "=" ++ url.QueryEscape v =
      url.QueryEscape k ++ (61 : Byte) :: url.QueryEscape v := by
    rw [List.append_assoc]; rfl
  rw [hseg]
  have h59 : containsByte 59 (url.QueryEscape k ++ (61 : Byte) :: url.QueryEscape v) = false := by
    apply containsByte_false
    intro hmem
    rcases List.mem_append.mp hmem with h | h
    · exact QueryEscape_not_mem k 59 (by simp) h
    · rcases List.mem_cons.mp h with h | h
      · exact absurd h (by decide)
      · exact QueryEscape_not_mem v 59 (by simp) h
  have hne : url.QueryEscape k ++ (61 : Byte) :: url.QueryEscape v ≠ [] := by simp
  simp only [url.parseSegment, h59, Bool.false_eq_true, if_false, hne,
    cut_append 61 _ _ (QueryEscape_not_mem k 61 (by simp)), QueryUnescape_QueryEscape]

/-- The segments of an encoded query are separated by `&`. -/
theorem splitOn_join_encoded (ps : List (GoString × GoString)) (p : GoString × GoString) :
    url.splitOn 38 (join (str "&")
      ((p :: ps).map (fun kv => url.QueryEscape kv.1 ++ str "=" ++ url.QueryEscape kv.2))) =
      (p :: ps).map (fun kv => url.QueryEscape kv.1 ++ str "=" ++ url.QueryEscape kv.2) := by
  have hseg : ∀ kv : GoString × GoString,
      (38 : Byte) ∉ url.QueryEscape kv.1 ++ str "=" ++ url.QueryEscape kv.2 := by
    intro kv hmem
    rcases List.mem_append.mp hmem with h | h
    · rcases List.mem_append.mp h with h | h
      · exact QueryEscape_not_mem kv.1 38 (by simp) h
      · exact absurd h (by decide)
    · exact QueryEscape_not_mem kv.2 38 (by simp) h
  induction ps generalizing p with
  | nil => simp only [List.map, join]; exact splitOn_not_mem 38 _ (hseg p)
  | cons p2 ps ih =>
    have e : join (str "&") ((p :: p2 :: ps).map
        (fun kv => url.QueryEscape kv.1 ++ str "=" ++ url.QueryEscape kv.2)) =
        (url.QueryEscape p.1 ++ str "=" ++ url.QueryEscape p.2) ++ (38 : Byte) ::
          join (str "&") ((p2 :: ps).map
            (fun kv => url.QueryEscape kv.1 ++ str "=" ++ url.QueryEscape kv.2)) := by
      simp only [List.map, join]
      rw [List.append_assoc]; rfl
    rw [e, splitOn_append 38 _ _ (hseg p), ih p2]
    rfl

/-- Parsing an encoded query adds the pairs back, in order. -/
theorem ParseQuery_encoded (ps : List (GoString × GoString)) :
    url.ParseQuery (join (str "&")
      (ps.map (fun kv => url.QueryEscape kv.1 ++ str "=" ++ url.QueryEscape kv.2))) =
      ps.foldl (fun m kv => url.Values.Add m kv.1 kv.2) [] := by
  cases ps with
  | nil => rfl
  | cons p ps =>
    rw [url.ParseQuery, splitOn_join_encoded ps p, List.foldl_map]
    congr 1
    funext m kv
    exact parseSegment_encoded m kv.1 kv.2

/-! ## Facts about `json.objectInterface` -/

theorem objectInterface_get_of_not_member (pf : GoString → Option Nat)
    (members : List (GoString × JValue)) (m : GoMap) (k : GoString)
    (hk : members.any (fun p => p.1 == k) = false) :
    StrMap.get k (json.objectInterface pf members m).1 = StrMap.get k m := by
  induction members generalizing m with
  | nil => simp [json.objectInterface]
  | cons p rest ih =>
    obtain ⟨k1, x⟩ := p
    simp only [List.any_cons, Bool.or_eq_false_iff, beq_eq_false_iff_ne, ne_eq] at hk
    simp only [json.objectInterface]
    rw [ih _ hk.2]
    exact StrMap_get_set_ne k1 k _ m (fun e => hk.1 e.symm)

theorem objectInterface_members (pf : GoString → Option Nat)
    (members : List (GoString × JValue)) (m : GoMap)
    (hval : ∀ p ∈ members, json.represents pf p.2 (json.valueInterface pf p.2).1 = true) :
    json.representsMembers pf members (json.objectInterface pf members m).1 = true := by
  induction members generalizing m with
  | nil => simp [json.representsMembers]
  | cons p rest ih =>
    obtain ⟨k, x⟩ := p
    simp only [json.objectInterface, json.representsMembers, Bool.and_eq_true, Bool.or_eq_true]
    refine ⟨?_, ih _ (fun p hp => hval p (List.mem_cons_of_mem _ hp))⟩
    cases hany : rest.any (fun p => p.1 == k) with
    | true => exact Or.inl rfl
    | false =>
      right
      rw [objectInterface_get_of_not_member pf rest _ k hany, StrMap_get_set_self]
      exact hval (k, x) (List.mem_cons_self _ _)

theorem objectInterface_keys (pf : GoString → Option Nat)
    (members : List (GoString × JValue)) (m : GoMap) (e : GoString × GoValue)
    (he : e ∈ (json.objectInterface pf members m).1) :
    members.any (fun p => p.1 == e.1) = true ∨ e ∈ m := by
  induction members generalizing m with
  | nil => exact Or.inr (by simpa [json.objectInterface] using he)
  | cons p rest ih =>
    obtain ⟨k, x⟩ := p
    simp only [json.objectInterface] at he
    simp only [List.any_cons, Bool.or_eq_true, beq_iff_eq]
    rcases ih _ he with h | h
    · exact Or.inl (Or.inr h)
    · rcases StrMap_mem_set k _ m e h with h2 | h2
      · exact Or.inl (Or.inl h2.symm)
      · exact Or.inr h2

theorem objectInterface_ordered (pf : GoString → Option Nat)
    (members : List (GoString × JValue)) (m : GoMap) (h : StrMap.ordered m = true) :
    StrMap.ordered (json.objectInterface pf members m).1 = true := by
  induction members generalizing m with
  | nil => simpa [json.objectInterface] using h
  | cons p rest ih =>
    obtain ⟨k, x⟩ := p
    simp only [json.objectInterface]
    exact ih _ (StrMap_ordered_set k _ m h)

theorem represents_object (pf : GoString → Option Nat) (members : List (GoString × JValue))
    (hval : ∀ p ∈ members, json.represents pf p.2 (json.valueInterface pf p.2).1 = true) :
    json.represents pf (.object members) (.map (json.objectInterface pf members []).1) = true := by
  simp only [json.represents, Bool.and_eq_true, List.all_eq_true]
  refine ⟨objectInterface_members pf members [] hval, ?_, objectInterface_ordered pf members [] rfl⟩
  intro e he
  rcases objectInterface_keys pf members [] e he with h | h
  · exact h
  · simp at h

theorem represents_null (pf : GoString → Option Nat) :
    json.represents pf .null (json.valueInterface pf .null).1 = true := by
  simp [json.valueInterface, json.represents]

theorem represents_bool (pf : GoString → Option Nat) (b : Bool) :
    json.represents pf (.bool b) (json.valueInterface pf (.bool b)).1 = true := by
  simp [json.valueInterface, json.represents]

theorem represents_string (pf : GoString → Option Nat) (s : GoString) :
    json.represents pf (.string s) (json.valueInterface pf (.string s)).1 = true := by
  simp [json.valueInterface, json.represents]

theorem represents_number (pf : GoString → Option Nat) (lit : GoString)
    (h : json.numbersFit pf (.number lit) = true) :
    json.represents pf (.number lit) (json.valueInterface pf (.number lit)).1 = true := by
  cases hpf : pf lit with
  | none =>
    simp only [json.numbersFit, hpf] at h
    exact absurd h (by decide)
  | some f =>
    have e : (json.valueInterface pf (.number lit)).1 = .float64 f := by
      simp only [json.valueInterface, hpf]
    rw [e]
    simp only [json.represents, hpf, beq_self_eq_true]

theorem represents_array (pf : GoString → Option Nat) (elems : List JValue)
    (h : json.representsAll pf elems (json.arrayInterface pf elems).1 = true) :
    json.represents pf (.array elems) (json.valueInterface pf (.array elems)).1 = true := by
  simpa only [json.valueInterface, json.represents] using h

theorem represents_object_value (pf : GoString → Option Nat)
    (members : List (GoString × JValue))
    (hval : ∀ p ∈ members, json.represents pf p.2 (json.valueInterface pf p.2).1 = true) :
    json.represents pf (.object members) (json.valueInterface pf (.object members)).1 = true := by
  simp only [json.valueInterface]
  exact represents_object pf members hval

theorem numbersFit_array (pf : GoString → Option Nat) (elems : List JValue)
    (h : json.numbersFit pf (.array elems) = true) : json.numbersFitAll pf elems = true := by
  simpa only [json.numbersFit] using h

theorem numbersFit_object (pf : GoString → Option Nat) (members : List (GoString × JValue))
    (h : json.numbersFit pf (.object members) = true) :
    json.numbersFitMembers pf members = true := by
  simpa only [json.numbersFit] using h

theorem numbersFitAll_cons (pf : GoString → Option Nat) (x : JValue) (rest : List JValue)
    (h : json.numbersFitAll pf (x :: rest) = true) :
    json.numbersFit pf x = true ∧ json.numbersFitAll pf rest = true := by
  simpa only [json.numbersFitAll, Bool.and_eq_true] using h

theorem numbersFitMembers_cons (pf : GoString → Option Nat) (k : GoString) (x : JValue)
    (rest : List (GoString × JValue))
    (h : json.numbersFitMembers pf ((k, x) :: rest) = true) :
    json.numbersFit pf x = true ∧ json.numbersFitMembers pf rest = true := by
  simpa only [json.numbersFitMembers, Bool.and_eq_true] using h

theorem representsAll_nil (pf : GoString → Option Nat) :
    json.representsAll pf [] (json.arrayInterface pf []).1 = true := by
  simp [json.arrayInterface, json.representsAll]

theorem representsAll_cons (pf : GoString → Option Nat) (x : JValue) (rest : List JValue)
    (h1 : json.represents pf x (json.valueInterface pf x).1 = true)
    (h2 : json.representsAll pf rest (json.arrayInterface pf rest).1 = true) :
    json.representsAll pf (x :: rest) (json.arrayInterface pf (x :: rest)).1 = true := by
  simp only [json.arrayInterface, json.representsAll, Bool.and_eq_true]
  exact ⟨h1, h2⟩

theorem forall_mem_cons_pair {P : GoString × JValue → Prop} (k : GoString) (x : JValue)
    (rest : List (GoString × JValue)) (h1 : P (k, x)) (h2 : ∀ p ∈ rest, P p) :
    ∀ p ∈ (k, x) :: rest, P p := by
  intro p hp
  rcases List.mem_cons.mp hp with hp | hp
  · rw [hp]; exact h1
  · exact h2 p hp

mutual
theorem represents_valueInterface (pf : GoString → Option Nat) :
    ∀ j : JValue, json.numbersFit pf j = true →
      json.represents pf j (json.valueInterface pf j).1 = true
  | .null, _ => represents_null pf
  | .bool b, _ => represents_bool pf b
  | .number lit, h => represents_number pf lit h
  | .string s, _ => represents_string pf s
  | .array elems, h =>
    represents_array pf elems (representsAll_arrayInterface pf elems (numbersFit_array pf elems h))
  | .object members, h =>
    represents_object_value pf members
      (represents_members pf members (numbersFit_object pf members h))
theorem representsAll_arrayInterface (pf : GoString → Option Nat) :
    ∀ elems : List JValue, json.numbersFitAll pf elems = true →
      json.representsAll pf elems (json.arrayInterface pf elems).1 = true
  | [], _ => representsAll_nil pf
  | x :: rest, h =>
    representsAll_cons pf x rest
      (represents_valueInterface pf x (numbersFitAll_cons pf x rest h).1)
      (representsAll_arrayInterface pf rest (numbersFitAll_cons pf x rest h).2)
theorem represents_members (pf : GoString → Option Nat) :
    ∀ members : List (GoString × JValue), json.numbersFitMembers pf members = true →
      ∀ p ∈ members, json.represents pf p.2 (json.valueInterface pf p.2).1 = true
  | [], _ => fun _ hp => absurd hp (List.not_mem_nil _)
  | (k, x) :: rest, h =>
    forall_mem_cons_pair k x rest
      (represents_valueInterface pf x (numbersFitMembers_cons pf k x rest h).1)
      (represents_members pf rest (numbersFitMembers_cons pf k x rest h).2)
end

/-! ## Facts about `strings.Cut` and `hexEscapeNonASCII` -/

theorem cut_fst_not_mem (sep : Byte) (s : GoString) : sep ∉ (url.cut sep s).1 := by
  induction s with
  | nil => simp [url.cut]
  | cons x s ih =>
    rw [url.cut]
    by_cases hx : x = sep
    · rw [if_pos hx]; simp
    · rw [if_neg hx]
      intro hmem
      rcases List.mem_cons.mp hmem with h | h
      · exact hx h.symm
      · exact ih h

theorem cut_eq_of_contains (sep : Byte) (s : GoString) (h : containsByte sep s = true) :
    s = (url.cut sep s).1 ++ sep :: (url.cut sep s).2 := by
  induction s with
  | nil => simp [containsByte] at h
  | cons x s ih =>
    rw [url.cut]
    by_cases hx : x = sep
    · rw [if_pos hx, hx]; rfl
    · rw [if_neg hx]
      have hs : containsByte sep s = true := by
        simp only [containsByte, List.any_cons, Bool.or_eq_true, beq_iff_eq] at h
        rcases h with h | h
        · exact absurd h hx
        · simpa only [containsByte] using h
      show x :: s = x :: ((url.cut sep s).1 ++ sep :: (url.cut sep s).2)
      rw [← ih hs]

theorem containsByte_true (c : Byte) (s : GoString) (h : c ∈ s) : containsByte c s = true := by
  simp only [containsByte, List.any_eq_true, beq_iff_eq]
  exact ⟨c, h, rfl⟩

theorem hexEscape_nil : http.hexEscapeNonASCII [] = [] := rfl

theorem hexEscape_cons (c : Byte) (s : GoString) :
    http.hexEscapeNonASCII (c :: s) = http.hexEscapeByte c ++ http.hexEscapeNonASCII s := by
  simp [http.hexEscapeNonASCII]

theorem hexEscape_append (a b : GoString) :
    http.hexEscapeNonASCII (a ++ b) = http.hexEscapeNonASCII a ++ http.hexEscapeNonASCII b := by
  simp [http.hexEscapeNonASCII]

set_option maxRecDepth 1000000 in
theorem hexEscapeByte_cases : ∀ c : Byte,
    (c.val < 128 ∧ http.hexEscapeByte c = [c]) ∨
    (128 ≤ c.val ∧ c ≠ 37 ∧ c ≠ 43 ∧
      http.hexEscapeByte c =
        [37, http.lowerhex.getD (c.val / 16) 0, http.lowerhex.getD (c.val % 16) 0] ∧
      url.ishex (http.lowerhex.getD (c.val / 16) 0) = true ∧
      url.ishex (http.lowerhex.getD (c.val % 16) 0) = true ∧
      (Fin.ofNat (((url.unhex (http.lowerhex.getD (c.val / 16) 0) <<< 4) |||
        url.unhex (http.lowerhex.getD (c.val % 16) 0)) % 256) : Byte) = c) := by
  decide

set_option maxRecDepth 1000000 in
theorem hexEscapeByte_all : ∀ c : Byte, (http.hexEscapeByte c).all
    (fun x => x == c || (x != 63 && x != 35 && x != 38 && x != 61 && x != 59)) = true := by
  decide

theorem hexEscapeByte_mem (c x : Byte) (hx : x ∈ http.hexEscapeByte c) :
    x = c ∨ (x ≠ 63 ∧ x ≠ 35 ∧ x ≠ 38 ∧ x ≠ 61 ∧ x ≠ 59) := by
  have h := List.all_eq_true.mp (hexEscapeByte_all c) x hx
  simp only [Bool.or_eq_true, beq_iff_eq, Bool.and_eq_true, bne_iff_ne, ne_eq] at h
  rcases h with h | ⟨⟨⟨⟨h1, h2⟩, h3⟩, h4⟩, h5⟩
  · exact Or.inl h
  · exact Or.inr ⟨h1, h2, h3, h4, h5⟩

theorem hexEscape_not_mem (s : GoString) (c : Byte)
    (hc : c = 63 ∨ c = 35 ∨ c = 38 ∨ c = 61 ∨ c = 59) (h : c ∉ s) :
    c ∉ http.hexEscapeNonASCII s := by
  induction s with
  | nil => simp [http.hexEscapeNonASCII]
  | cons x s ih =>
    rw [hexEscape_cons]
    intro hmem
    rcases List.mem_append.mp hmem with hm | hm
    · rcases hexEscapeByte_mem x c hm with h1 | ⟨h1, h2, h3, h4, h5⟩
      · exact h (h1 ▸ List.mem_cons_self _ _)
      · rcases hc with hc | hc | hc | hc | hc
        · exact h1 hc
        · exact h2 hc
        · exact h3 hc
        · exact h4 hc
        · exact h5 hc
    · exact ih (fun hm2 => h (List.mem_cons_of_mem _ hm2)) hm

theorem hexEscape_ascii (s : GoString) (h : ∀ c ∈ s, c.val < 128) :
    http.hexEscapeNonASCII s = s := by
  induction s with
  | nil => rfl
  | cons x s ih =>
    have hx : http.hexEscapeByte x = [x] := by
      have := h x (List.mem_cons_self _ _)
      simp only [http.hexEscapeByte, if_neg (Nat.not_le.mpr this)]
    rw [hexEscape_cons, hx, ih (fun c hc => h c (List.mem_cons_of_mem _ hc))]
    rfl

/-! ## `ParseQuery` reads an escaped query as the query itself -/

set_option maxRecDepth 1000000 in
theorem ishex_ascii : ∀ c : Byte, url.ishex c = true → c.val < 128 := by decide

theorem hexEscapeByte_ascii (c : Byte) (h : c.val < 128) : http.hexEscapeByte c = [c] := by
  simp only [http.hexEscapeByte, if_neg (Nat.not_le.mpr h)]

theorem hexEscapeByte_high (c : Byte) (h : 128 ≤ c.val) :
    http.hexEscapeByte c =
      [37, http.lowerhex.getD (c.val / 16) 0, http.lowerhex.getD (c.val % 16) 0] := by
  simp only [http.hexEscapeByte, if_pos h]

theorem QueryUnescape_bad_hex (g1 g2 : Byte) (t : GoString)
    (h : ¬ (url.ishex g1 = true ∧ url.ishex g2 = true)) :
    url.QueryUnescape (37 :: g1 :: g2 :: t) = none := by
  conv_lhs => unfold url.QueryUnescape
  simp only [if_true, if_neg h]

theorem QueryUnescape_percent_short (t : GoString) (h : t.length < 2) :
    url.QueryUnescape (37 :: t) = none := by
  conv_lhs => unfold url.QueryUnescape
  match t, h with
  | [], _ => simp
  | [_], _ => simp

theorem QueryUnescape_hexEscape_aux (n : Nat) :
    ∀ k : GoString, k.length ≤ n →
      url.QueryUnescape (http.hexEscapeNonASCII k) = url.QueryUnescape k := by
  induction n with
  | zero =>
    intro k hk
    have : k = [] := List.length_eq_zero.mp (Nat.le_zero.mp hk)
    subst this
    rfl
  | succ n ih =>
    intro k hk
    cases k with
    | nil => rfl
    | cons c rest =>
      have hrest : rest.length ≤ n := by simpa using hk
      rw [hexEscape_cons]
      by_cases h37 : c = 37
      · subst h37
        rw [hexEscapeByte_ascii 37 (by decide), List.singleton_append]
        match rest, hrest with
        | [], _ => rfl
        | [h1], _ =>
          rw [QueryUnescape_percent_short [h1] (by simp)]
          rw [hexEscape_cons, hexEscape_nil, List.append_nil]
          rcases hexEscapeByte_cases h1 with ⟨_, e⟩ | ⟨_, _, _, e, _, _, _⟩
          · rw [e]; exact QueryUnescape_percent_short _ (by simp)
          · rw [e]; exact QueryUnescape_bad_hex _ _ _ (fun h => absurd h.1 (by decide))
        | h1 :: h2 :: rest2, hr =>
          have hrest2 : rest2.length ≤ n := by
            simp only [List.length_cons] at hr
            omega
          rw [hexEscape_cons, hexEscape_cons]
          by_cases hh : url.ishex h1 = true ∧ url.ishex h2 = true
          · rw [hexEscapeByte_ascii h1 (ishex_ascii h1 hh.1),
              hexEscapeByte_ascii h2 (ishex_ascii h2 hh.2)]
            show url.QueryUnescape (37 :: h1 :: h2 :: http.hexEscapeNonASCII rest2) = _
            rw [QueryUnescape_cons_hex h1 h2 _ hh.1 hh.2, QueryUnescape_cons_hex h1 h2 _ hh.1 hh.2,
              ih rest2 hrest2]
          · rw [QueryUnescape_bad_hex h1 h2 rest2 hh]
            rcases hexEscapeByte_cases h1 with ⟨_, e1⟩ | ⟨_, _, _, e1, _, _, _⟩
            · rw [e1]
              rcases hexEscapeByte_cases h2 with ⟨_, e2⟩ | ⟨_, _, _, e2, _, _, _⟩
              · rw [e2]
                exact QueryUnescape_bad_hex h1 h2 _ hh
              · rw [e2]
                exact QueryUnescape_bad_hex h1 37 _ (fun h => absurd h.2 (by decide))
            · rw [e1]
              exact QueryUnescape_bad_hex 37 _ _ (fun h => absurd h.1 (by decide))
      · by_cases h43 : c = 43
        · subst h43
          rw [hexEscapeByte_ascii 43 (by decide), List.singleton_append,
            QueryUnescape_cons_plus, QueryUnescape_cons_plus, ih rest hrest]
        · rcases hexEscapeByte_cases c with ⟨_, e⟩ | ⟨_, _, _, e, e1, e2, e3⟩
          · rw [e, List.singleton_append, QueryUnescape_cons_plain c _ h37 h43,
              QueryUnescape_cons_plain c _ h37 h43, ih rest hrest]
          · rw [e]
            show url.QueryUnescape (37 :: _ :: _ :: http.hexEscapeNonASCII rest) = _
            rw [QueryUnescape_cons_hex _ _ _ e1 e2, e3, QueryUnescape_cons_plain c _ h37 h43,
              ih rest hrest]

theorem QueryUnescape_hexEscape (k : GoString) :
    url.QueryUnescape (http.hexEscapeNonASCII k) = url.QueryUnescape k :=
  QueryUnescape_hexEscape_aux k.length k (Nat.le_refl _)

theorem hexEscapeByte_not_mem (x c : Byte)
    (hc : c = 63 ∨ c = 35 ∨ c = 38 ∨ c = 61 ∨ c = 59) (hx : x ≠ c) :
    c ∉ http.hexEscapeByte x := by
  intro hm
  rcases hexEscapeByte_mem x c hm with h1 | ⟨h1, h2, h3, h4, h5⟩
  · exact hx h1.symm
  · rcases hc with hc | hc | hc | hc | hc
    · exact h1 hc
    · exact h2 hc
    · exact h3 hc
    · exact h4 hc
    · exact h5 hc

theorem splitOn_ne_nil (sep : Byte) (s : GoString) : url.splitOn sep s ≠ [] := by
  cases s with
  | nil => simp [url.splitOn]
  | cons x s =>
    rw [url.splitOn]
    split
    · simp
    · split <;> simp

theorem splitOn_prepend (sep : Byte) (pre t h : GoString) (tl : List GoString)
    (hpre : sep ∉ pre) (ht : url.splitOn sep t = h :: tl) :
    url.splitOn sep (pre ++ t) = (pre ++ h) :: tl := by
  induction pre with
  | nil => simpa using ht
  | cons x pre ih =>
    have hx : x ≠ sep := fun e => hpre (e ▸ List.mem_cons_self _ _)
    have hp : sep ∉ pre := fun hm => hpre (List.mem_cons_of_mem _ hm)
    rw [List.cons_append, url.splitOn, if_neg hx, ih hp]
    rfl

theorem cut_prepend (sep : Byte) (pre t : GoString) (hpre : sep ∉ pre) :
    url.cut sep (pre ++ t) = (pre ++ (url.cut sep t).1, (url.cut sep t).2) := by
  induction pre with
  | nil => rfl
  | cons x pre ih =>
    have hx : x ≠ sep := fun e => hpre (e ▸ List.mem_cons_self _ _)
    have hp : sep ∉ pre := fun hm => hpre (List.mem_cons_of_mem _ hm)
    rw [List.cons_append, url.cut, if_neg hx, ih hp]
    rfl

theorem splitOn_hexEscape (s : GoString) :
    url.splitOn 38 (http.hexEscapeNonASCII s) =
      (url.splitOn 38 s).map http.hexEscapeNonASCII := by
  induction s with
  | nil => rfl
  | cons x s ih =>
    rw [hexEscape_cons]
    by_cases hx : x = 38
    · subst hx
      rw [hexEscapeByte_ascii 38 (by decide), List.singleton_append, url.splitOn, if_pos rfl,
        url.splitOn, if_pos rfl, ih]
      rfl
    · obtain ⟨h, tl, ht⟩ : ∃ h tl, url.splitOn 38 s = h :: tl := by
        cases hs : url.splitOn 38 s with
        | nil => exact absurd hs (splitOn_ne_nil 38 s)
        | cons h tl => exact ⟨h, tl, rfl⟩
      rw [ht] at ih
      rw [splitOn_prepend 38 _ _ _ _ (hexEscapeByte_not_mem x 38 (by simp) hx) ih,
        url.splitOn, if_neg hx, ht]
      simp only [List.map, hexEscape_cons]

theorem cut_hexEscape (s : GoString) :
    url.cut 61 (http.hexEscapeNonASCII s) =
      (http.hexEscapeNonASCII (url.cut 61 s).1, http.hexEscapeNonASCII (url.cut 61 s).2) := by
  induction s with
  | nil => rfl
  | cons x s ih =>
    rw [hexEscape_cons]
    by_cases hx : x = 61
    · subst hx
      rw [hexEscapeByte_ascii 61 (by decide), List.singleton_append, url.cut, if_pos rfl,
        url.cut, if_pos rfl]
      rfl
    · rw [cut_prepend 61 _ _ (hexEscapeByte_not_mem x 61 (by simp) hx), ih, url.cut, if_neg hx]
      simp only [hexEscape_cons]

theorem hexEscape_mem_of_ascii (c : Byte) (s : GoString) (hc : c.val < 128) (h : c ∈ s) :
    c ∈ http.hexEscapeNonASCII s := by
  induction s with
  | nil => simp at h
  | cons x s ih =>
    rw [hexEscape_cons]
    rcases List.mem_cons.mp h with h1 | h1
    · subst h1
      rw [hexEscapeByte_ascii c hc]
      simp
    · exact List.mem_append_right _ (ih h1)

theorem containsByte_hexEscape (s : GoString) :
    containsByte 59 (http.hexEscapeNonASCII s) = containsByte 59 s := by
  cases h : containsByte 59 s with
  | true =>
    have hm : (59 : Byte) ∈ s := by
      simp only [containsByte, List.any_eq_true, beq_iff_eq] at h
      obtain ⟨x, hx, e⟩ := h
      exact e ▸ hx
    exact containsByte_true 59 _ (hexEscape_mem_of_ascii 59 s (by decide) hm)
  | false =>
    exact containsByte_false 59 _
      (hexEscape_not_mem s 59 (by simp) (mem_of_containsByte_false 59 s h))

theorem hexEscape_eq_nil (s : GoString) : http.hexEscapeNonASCII s = [] ↔ s = [] := by
  constructor
  · intro h
    cases s with
    | nil => rfl
    | cons x s =>
      rw [hexEscape_cons] at h
      rcases hexEscapeByte_cases x with ⟨_, e⟩ | ⟨_, _, _, e, _, _, _⟩ <;> rw [e] at h <;> simp at h
  · intro h; rw [h]; rfl

theorem parseSegment_hexEscape (m : url.Values) (seg : GoString) :
    url.parseSegment m (http.hexEscapeNonASCII seg) = url.parseSegment m seg := by
  simp only [url.parseSegment, containsByte_hexEscape, hexEscape_eq_nil, cut_hexEscape,
    QueryUnescape_hexEscape]

theorem ParseQuery_hexEscape (s : GoString) :
    url.ParseQuery (http.hexEscapeNonASCII s) = url.ParseQuery s := by
  rw [url.ParseQuery, url.ParseQuery, splitOn_hexEscape, List.foldl_map]
  congr 1
  funext m seg
  exact parseSegment_hexEscape m seg

/-! ## Facts about `path.Clean` and the target of `http.Redirect` -/

theorem splitOn_mem_bytes (sep c : Byte) (s seg : GoString)
    (hseg : seg ∈ url.splitOn sep s) (hc : c ∈ seg) : c ∈ s := by
  induction s generalizing seg with
  | nil =>
    simp only [url.splitOn, List.mem_singleton] at hseg
    rw [hseg] at hc
    exact hc
  | cons x s ih =>
    rw [url.splitOn] at hseg
    by_cases hx : x = sep
    · rw [if_pos hx] at hseg
      rcases List.mem_cons.mp hseg with h | h
      · rw [h] at hc; simp at hc
      · exact List.mem_cons_of_mem _ (ih seg h hc)
    · rw [if_neg hx] at hseg
      cases hs : url.splitOn sep s with
      | nil => exact absurd hs (splitOn_ne_nil sep s)
      | cons h tl =>
        rw [hs] at hseg ih
        rcases List.mem_cons.mp hseg with h1 | h1
        · rw [h1] at hc
          rcases List.mem_cons.mp hc with h2 | h2
          · rw [h2]; exact List.mem_cons_self _ _
          · exact List.mem_cons_of_mem _ (ih h (List.mem_cons_self _ _) h2)
        · exact List.mem_cons_of_mem _ (ih seg (List.mem_cons_of_mem _ h1) hc)

theorem join_mem (sp : GoString) (c : Byte) (xs : List GoString) (hc : c ∈ join sp xs) :
    c ∈ sp ∨ ∃ e ∈ xs, c ∈ e := by
  induction xs with
  | nil => simp [join] at hc
  | cons x xs ih =>
    cases xs with
    | nil =>
      simp only [join] at hc
      exact Or.inr ⟨x, List.mem_cons_self _ _, hc⟩
    | cons y ys =>
      simp only [join] at hc
      rcases List.mem_append.mp hc with h | h
      · rcases List.mem_append.mp h with h | h
        · exact Or.inr ⟨x, List.mem_cons_self _ _, h⟩
        · exact Or.inl h
      · rcases ih h with h1 | ⟨e, he, hce⟩
        · exact Or.inl h1
        · exact Or.inr ⟨e, List.mem_cons_of_mem _ he, hce⟩

theorem cleanStep_mem (rooted : Bool) (out : List GoString) (elem e : GoString)
    (he : e ∈ path.cleanStep rooted out elem) : e ∈ out ∨ e = elem ∨ e = str ".." := by
  unfold path.cleanStep at he
  split at he
  · exact Or.inl he
  · split at he
    · cases out with
      | nil =>
        simp only at he
        split at he
        · simp at he
        · exact Or.inr (Or.inr (List.mem_singleton.mp he))
      | cons top below =>
        simp only at he
        split at he
        · split at he
          · exact Or.inl he
          · rcases List.mem_cons.mp he with h | h
            · exact Or.inr (Or.inr h)
            · exact Or.inl h
        · exact Or.inl (List.mem_cons_of_mem _ he)
    · rcases List.mem_cons.mp he with h | h
      · exact Or.inr (Or.inl h)
      · exact Or.inl h

theorem foldl_cleanStep_mem (rooted : Bool) (elems out : List GoString) (e : GoString)
    (he : e ∈ elems.foldl (path.cleanStep rooted) out) :
    e ∈ out ∨ e ∈ elems ∨ e = str ".." := by
  induction elems generalizing out with
  | nil => exact Or.inl he
  | cons x xs ih =>
    rw [List.foldl_cons] at he
    rcases ih _ he with h | h | h
    · rcases cleanStep_mem rooted out x e h with h1 | h1 | h1
      · exact Or.inl h1
      · exact Or.inr (Or.inl (h1 ▸ List.mem_cons_self _ _))
      · exact Or.inr (Or.inr h1)
    · exact Or.inr (Or.inl (List.mem_cons_of_mem _ h))
    · exact Or.inr (Or.inr h)

set_option maxRecDepth 100000 in
theorem mem_slash_or_dots : (∀ x ∈ str "/", x = (47 : Byte)) ∧ (∀ x ∈ str ".", x = (46 : Byte)) ∧
    (∀ x ∈ str "..", x = (46 : Byte)) := by
  decide

/-- `path.Clean` writes no byte that is not in its argument, except slashes and dots. -/
theorem Clean_not_mem (p : GoString) (c : Byte) (h47 : c ≠ 47) (h46 : c ≠ 46) (hc : c ∉ p) :
    c ∉ path.Clean p := by
  have helem : ∀ e ∈ ((url.splitOn 47 p).foldl
      (path.cleanStep (p.head? == some 47)) []).reverse, c ∉ e := by
    intro e he hce
    rcases foldl_cleanStep_mem _ _ _ e (List.mem_reverse.mp he) with h | h | h
    · simp at h
    · exact hc (splitOn_mem_bytes 47 c p e h hce)
    · rw [h] at hce
      exact h46 (mem_slash_or_dots.2.2 c hce)
  have hjoin : c ∉ join (str "/") ((url.splitOn 47 p).foldl
      (path.cleanStep (p.head? == some 47)) []).reverse := by
    intro hm
    rcases join_mem _ c _ hm with h | ⟨e, he, hce⟩
    · exact h47 (mem_slash_or_dots.1 c h)
    · exact helem e he hce
  unfold path.Clean
  simp only
  split
  · intro hm
    rcases List.mem_cons.mp hm with h | h
    · exact h47 h
    · exact hjoin h
  · split
    · intro hm
      exact h46 (mem_slash_or_dots.2.1 c hm)
    · exact hjoin

theorem Split_dir_not_mem (p : GoString) (c : Byte) (hc : c ∉ p) : c ∉ (path.Split p).1 := by
  unfold path.Split
  split
  · exact fun hm => hc (List.mem_of_mem_take hm)
  · simp

/-- The shape of the `Location` of a redirect whose target has a `?`: whatever
`http.Redirect` does to the part before the first `?`, it puts no `?` and no `#` there,
and the part after it is kept, with its non-ASCII bytes escaped. -/
theorem resolveTarget_split (r : http.Request) (a1 rest : GoString)
    (h63 : (63 : Byte) ∉ a1) (h35 : (35 : Byte) ∉ a1)
    (hpath : url.isRelativeReference (a1 ++ 63 :: rest) = true →
      containsByte 63 r.Path = false ∧ containsByte 35 r.Path = false) :
    ∃ pre : GoString,
      http.hexEscapeNonASCII (http.resolveTarget r (a1 ++ 63 :: rest)) =
        pre ++ 63 :: http.hexEscapeNonASCII rest ∧
      (63 : Byte) ∉ pre ∧ (35 : Byte) ∉ pre := by
  have hsplit : ∀ x : GoString, http.hexEscapeNonASCII (x ++ 63 :: rest) =
      http.hexEscapeNonASCII x ++ 63 :: http.hexEscapeNonASCII rest := by
    intro x
    rw [hexEscape_append, hexEscape_cons, hexEscapeByte_ascii 63 (by decide)]
    rfl
  cases hrel : url.isRelativeReference (a1 ++ 63 :: rest) with
  | false =>
    refine ⟨http.hexEscapeNonASCII a1, ?_, hexEscape_not_mem a1 63 (by simp) h63,
      hexEscape_not_mem a1 35 (by simp) h35⟩
    simp only [http.resolveTarget, hrel, Bool.false_eq_true, if_false]
    exact hsplit a1
  | true =>
    obtain ⟨hp63, hp35⟩ := hpath hrel
    have hold : ∀ c : Byte, c ≠ 47 → c ∉ r.Path →
        c ∉ (path.Split (if r.Path = [] then str "/" else r.Path)).1 := by
      intro c hc47 hc
      apply Split_dir_not_mem
      split
      · intro hm
        exact hc47 (mem_slash_or_dots.1 c hm)
      · exact hc
    -- the target after the directory of the request path is put before it
    obtain ⟨d, hd, hd63, hd35⟩ : ∃ d : GoString,
        (if a1 ++ 63 :: rest = [] ∨ (a1 ++ 63 :: rest).head? ≠ some 47 then
            (path.Split (if r.Path = [] then str "/" else r.Path)).1 ++ (a1 ++ 63 :: rest)
          else a1 ++ 63 :: rest) = (d ++ a1) ++ 63 :: rest ∧
        (63 : Byte) ∉ d ∧ (35 : Byte) ∉ d := by
      split
      · refine ⟨(path.Split (if r.Path = [] then str "/" else r.Path)).1,
          by simp only [List.append_assoc], ?_, ?_⟩
        · exact hold 63 (by decide) (mem_of_containsByte_false 63 _ hp63)
        · exact hold 35 (by decide) (mem_of_containsByte_false 35 _ hp35)
      · exact ⟨[], rfl, by simp, by simp⟩
    have hda63 : (63 : Byte) ∉ d ++ a1 := by
      intro hm
      rcases List.mem_append.mp hm with h | h
      · exact hd63 h
      · exact h63 h
    have hda35 : (35 : Byte) ∉ d ++ a1 := by
      intro hm
      rcases List.mem_append.mp hm with h | h
      · exact hd35 h
      · exact h35 h
    have hcut : url.cut 63 ((d ++ a1) ++ 63 :: rest) = (d ++ a1, rest) :=
      cut_append 63 _ _ hda63
    have hcont : containsByte 63 ((d ++ a1) ++ 63 :: rest) = true :=
      containsByte_true 63 _ (List.mem_append_right _ (List.mem_cons_self _ _))
    have hres : ∃ u4 : GoString,
        http.resolveTarget r (a1 ++ 63 :: rest) = u4 ++ 63 :: rest ∧
        (63 : Byte) ∉ u4 ∧ (35 : Byte) ∉ u4 := by
      simp only [http.resolveTarget, hrel, if_true, hd, hcut, hcont]
      have hc63 := Clean_not_mem (d ++ a1) 63 (by decide) (by decide) hda63
      have hc35 := Clean_not_mem (d ++ a1) 35 (by decide) (by decide) hda35
      split
      · refine ⟨_, rfl, ?_, ?_⟩
        · intro hm
          rcases List.mem_append.mp hm with h | h
          · exact hc63 h
          · exact absurd h (by decide)
        · intro hm
          rcases List.mem_append.mp hm with h | h
          · exact hc35 h
          · exact absurd h (by decide)
      · exact ⟨_, rfl, hc63, hc35⟩
    obtain ⟨u4, hu4, hu63, hu35⟩ := hres
    refine ⟨http.hexEscapeNonASCII u4, ?_, hexEscape_not_mem u4 63 (by simp) hu63,
      hexEscape_not_mem u4 35 (by simp) hu35⟩
    rw [hu4]
    exact hsplit u4

/-! ## Requests -/

theorem Cookie_absent (r : http.Request) (name : GoString)
    (h : ∀ c ∈ r.cookies, c.1 ≠ name) : r.Cookie name = .error http.ErrNoCookie := by
  have hf : r.cookies.find? (fun c => c.1 == name) = none := by
    rw [List.find?_eq_none]
    intro c hc
    simpa using h c hc
  simp only [http.Request.Cookie, hf]

theorem FormValue_absent (r : http.Request) (key : GoString)
    (h : ∀ p ∈ r.form, p.1 ≠ key) : r.FormValue key = [] := by
  have hf : r.form.find? (fun p => p.1 == key) = none := by
    rw [List.find?_eq_none]
    intro p hp
    simpa using h p hp
  simp only [http.Request.FormValue, hf]

theorem hasPrefix_append (p s : GoString) : hasPrefix (p ++ s) p = true := by
  induction p with
  | nil => cases s <;> rfl
  | cons x p ih => simp [hasPrefix, ih]

theorem redirect_fresh (r : http.Request) :
    http.Redirect http.Response.fresh r (str "/") http.StatusTemporaryRedirect =
      redirectToRoot r := rfl

/-! ## The paths of `getUserData` and `oauthCfCallback` -/

theorem getUserData_exchange_error (W : World) (code err : GoString)
    (hex : W.Exchange (getOauthConfig (getUaaConfig W)) code = .error err) :
    getUserData W code =
      (.error (str "code exchange wrong: " ++ err),
        [Call.token (getOauthConfig (getUaaConfig W)).Endpoint.TokenURL code]) := by
  simp only [getUserData, hex]

theorem getUserData_get_error (W : World) (code err : GoString) (token : oauth2.Token)
    (hex : W.Exchange (getOauthConfig (getUaaConfig W)) code = .ok token)
    (hget : W.Get (getOauthConfig (getUaaConfig W)) token
      ((getUaaConfig W).BaseUrl ++ str "/userinfo") = .error err) :
    getUserData W code =
      (.error (str "failed to get user info: " ++ err),
        [Call.token (getOauthConfig (getUaaConfig W)).Endpoint.TokenURL code,
          Call.userinfo ((getUaaConfig W).BaseUrl ++ str "/userinfo")]) := by
  simp only [getUserData, hex, hget]

theorem getUserData_read_error (W : World) (code err : GoString) (token : oauth2.Token)
    (resp : HttpResponse)
    (hex : W.Exchange (getOauthConfig (getUaaConfig W)) code = .ok token)
    (hget : W.Get (getOauthConfig (getUaaConfig W)) token
      ((getUaaConfig W).BaseUrl ++ str "/userinfo") = .ok resp)
    (hbody : resp.Body = .error err) :
    getUserData W code =
      (.error (str "failed read response: " ++ err),
        [Call.token (getOauthConfig (getUaaConfig W)).Endpoint.TokenURL code,
          Call.userinfo ((getUaaConfig W).BaseUrl ++ str "/userinfo")]) := by
  simp only [getUserData, hex, hget, hbody]

theorem getUserData_ok (W : World) (code data : GoString) (token : oauth2.Token)
    (resp : HttpResponse)
    (hex : W.Exchange (getOauthConfig (getUaaConfig W)) code = .ok token)
    (hget : W.Get (getOauthConfig (getUaaConfig W)) token
      ((getUaaConfig W).BaseUrl ++ str "/userinfo") = .ok resp)
    (hbody : resp.Body = .ok data) :
    getUserData W code =
      (.ok (json.Unmarshal W.scan W.parseFloat data).1,
        [Call.token (getOauthConfig (getUaaConfig W)).Endpoint.TokenURL code,
          Call.userinfo ((getUaaConfig W).BaseUrl ++ str "/userinfo")]) := by
  simp only [getUserData, hex, hget, hbody]

theorem callback_no_cookie (W : World) (r : http.Request) (err : GoString)
    (hc : r.Cookie (str "oauthstate") = .error err) :
    oauthCfCallback W r =
      { resp := redirectToRoot r, log := [str "Reached callback", err], calls := [] } := by
  simp only [oauthCfCallback, hc, redirect_fresh]

theorem callback_mismatch (W : World) (r : http.Request) (v : GoString)
    (hc : r.Cookie (str "oauthstate") = .ok v) (hne : r.FormValue (str "state") ≠ v) :
    oauthCfCallback W r =
      { resp := redirectToRoot r, log := [str "Reached callback", str "invalid oauth state"],
        calls := [] } := by
  simp only [oauthCfCallback, hc, redirect_fresh, ne_eq, hne, not_false_eq_true, if_true]

theorem callback_user_data_error (W : World) (r : http.Request) (v err : GoString)
    (calls : List Call)
    (hc : r.Cookie (str "oauthstate") = .ok v) (hs : r.FormValue (str "state") = v)
    (hu : getUserData W (r.FormValue (str "code")) = (.error err, calls)) :
    oauthCfCallback W r =
      { resp := redirectToRoot r, log := [str "Reached callback", err], calls := calls } := by
  simp only [oauthCfCallback, hc, hs, hu, redirect_fresh, ne_eq, not_true_eq_false, if_false]

theorem callback_user_data_ok (W : World) (r : http.Request) (v : GoString)
    (userInfo : Option GoMap) (calls : List Call)
    (hc : r.Cookie (str "oauthstate") = .ok v) (hs : r.FormValue (str "state") = v)
    (hu : getUserData W (r.FormValue (str "code")) = (.ok userInfo, calls)) :
    oauthCfCallback W r =
      { resp :=
          { status := 200, location := none, setCookie := [],
            body := str "user info: " ++ fmt.sprintMap W.formatFloat userInfo ++ str "\n",
            note := [] }
        log := [str "Reached callback"], calls := calls } := by
  simp only [oauthCfCallback, hc, hs, hu, ne_eq, not_true_eq_false, if_false]
  rfl

theorem getUserData_calls_head (W : World) (code : GoString) :
    (getUserData W code).2.head? =
      some (Call.token ((getUaaConfig W).BaseUrl ++ str "/oauth/token") code) := by
  cases hex : W.Exchange (getOauthConfig (getUaaConfig W)) code with
  | error err => rw [getUserData_exchange_error W code err hex]; rfl
  | ok token =>
    cases hget : W.Get (getOauthConfig (getUaaConfig W)) token
        ((getUaaConfig W).BaseUrl ++ str "/userinfo") with
    | error err => rw [getUserData_get_error W code err token hex hget]; rfl
    | ok resp =>
      cases hbody : resp.Body with
      | error err => rw [getUserData_read_error W code err token resp hex hget hbody]; rfl
      | ok data => rw [getUserData_ok W code data token resp hex hget hbody]; rfl

/-! ## C1: state validation -/

/-- C1: for every callback request in which the `oauthstate` cookie is absent, or in
which the `state` form value differs from the cookie value, `oauthCfCallback` answers
with a 307 redirect to `/` and makes no outbound call: the token endpoint is not
called. -/
theorem callback_rejects_bad_state (W : World) (r : http.Request)
    (h : (∀ c ∈ r.cookies, c.1 ≠ str "oauthstate") ∨
      (∃ v, r.Cookie (str "oauthstate") = .ok v ∧ r.FormValue (str "state") ≠ v)) :
    (oauthCfCallback W r).resp.status = 307 ∧
    (oauthCfCallback W r).resp.location = some (str "/") ∧
    (oauthCfCallback W r).resp = redirectToRoot r ∧
    (oauthCfCallback W r).calls = [] := by
  rcases h with h | ⟨v, hv, hne⟩
  · rw [callback_no_cookie W r _ (Cookie_absent r (str "oauthstate") h)]
    exact ⟨rfl, rfl, rfl, rfl⟩
  · rw [callback_mismatch W r v hv hne]
    exact ⟨rfl, rfl, rfl, rfl⟩

/-- Witness of C1: the cookie holds `abc` and the request says `state=xyz`. -/
theorem callback_rejects_bad_state_witness :
    (oauthCfCallback (sampleWorld 200 (str "null"))
      (sampleRequest [(str "oauthstate", str "abc")]
        [(str "state", str "xyz"), (str "code", str "good")])).calls = [] :=
  (callback_rejects_bad_state (sampleWorld 200 (str "null"))
    (sampleRequest [(str "oauthstate", str "abc")]
      [(str "state", str "xyz"), (str "code", str "good")])
    (Or.inr ⟨str "abc", rfl, by decide⟩)).2.2.2

/-! ## C2: the login redirect -/

set_option maxRecDepth 1000000 in
theorem isAlphabet_cookie_byte : ∀ c : Byte, base64.isAlphabet c = true ∨ c = base64.padChar →
    http.validCookieValueByte c = true ∧ c ≠ 32 ∧ c ≠ 44 := by
  decide

theorem sanitizeCookieValue_id (s : GoString)
    (h : ∀ c ∈ s, http.validCookieValueByte c = true ∧ c ≠ 32 ∧ c ≠ 44) :
    http.sanitizeCookieValue s = s := by
  have hf : s.filter http.validCookieValueByte = s :=
    List.filter_eq_self.mpr (fun c hc => (h c hc).1)
  have h32 : containsByte 32 s = false :=
    containsByte_false 32 s (fun hm => (h 32 hm).2.1 rfl)
  have h44 : containsByte 44 s = false :=
    containsByte_false 44 s (fun hm => (h 44 hm).2.2 rfl)
  simp only [http.sanitizeCookieValue, hf, h32, h44, Bool.or_self, Bool.false_eq_true, if_false]
  split <;> rfl

theorem token_bytes (b : List Byte) (hb : b.length = 16) :
    base64.EncodeToString b ≠ [] ∧
    ∀ c ∈ base64.EncodeToString b, base64.isAlphabet c = true ∨ c = base64.padChar := by
  obtain ⟨body, h1, _, h3⟩ := EncodeToString_shape b (by rw [hb])
  rw [h1]
  refine ⟨by simp, ?_⟩
  intro c hc
  rcases List.mem_append.mp hc with h | h
  · exact Or.inl (List.all_eq_true.mp h3 c h)
  · right
    simp only [List.mem_cons, List.mem_singleton, List.not_mem_nil, or_false, or_self] at h
    exact h

/-- The parameters of the authorization URL of `oauthCfLogin`, in the order `Encode`
writes them. -/
theorem AuthCodeURL_login (c : UaaConfig) (state : GoString) (hs : state ≠ []) :
    (getOauthConfig c).AuthCodeURL state [oauth2.AccessTypeOffline] =
      c.AuthUrl ++ (if containsByte 63 c.AuthUrl then str "&" else str "?") ++
        authorizeQuery c state := by
  have h1 : (getOauthConfig c).RedirectURL ≠ [] := by
    show str "http://localhost:3000/auth/cloudfoundry/callback" ≠ []
    decide
  have h2 : (getOauthConfig c).Scopes.length > 0 := by
    show [str ""].length > 0
    decide
  simp only [oauth2.Config.AuthCodeURL, if_pos h1, if_pos h2, if_pos hs]
  rfl

set_option maxRecDepth 100000 in
theorem mem_amp_or_eq : (∀ x ∈ str "&", x = (38 : Byte)) ∧ (∀ x ∈ str "=", x = (61 : Byte)) := by
  decide

theorem encoded_bytes (ps : List (GoString × GoString)) (c : Byte)
    (hc : c ∈ join (str "&")
      (ps.map (fun kv => url.QueryEscape kv.1 ++ str "=" ++ url.QueryEscape kv.2))) :
    url.isEscaped c = true ∨ c = 61 ∨ c = 38 := by
  rcases join_mem _ c _ hc with h | ⟨e, he, hce⟩
  · exact Or.inr (Or.inr (mem_amp_or_eq.1 c h))
  · obtain ⟨kv, _, rfl⟩ := List.mem_map.mp he
    rcases List.mem_append.mp hce with h | h
    · rcases List.mem_append.mp h with h | h
      · exact Or.inl (List.all_eq_true.mp (QueryEscape_isEscaped kv.1) c h)
      · exact Or.inr (Or.inl (mem_amp_or_eq.2 c h))
    · exact Or.inl (List.all_eq_true.mp (QueryEscape_isEscaped kv.2) c h)

set_option maxRecDepth 1000000 in
theorem isEscaped_ascii : ∀ c : Byte, url.isEscaped c = true ∨ c = 61 ∨ c = 38 →
    c.val < 128 ∧ c ≠ 35 := by
  decide

theorem authorizeQuery_eq (c : UaaConfig) (state : GoString) :
    authorizeQuery c state =
      join (str "&")
        ([(str "access_type", str "offline"), (str "client_id", c.UaaClientId),
          (str "redirect_uri", str "http://localhost:3000/auth/cloudfoundry/callback"),
          (str "response_type", str "code"), (str "scope", []), (str "state", state)].map
          (fun kv => url.QueryEscape kv.1 ++ str "=" ++ url.QueryEscape kv.2)) := rfl

theorem authorizeQuery_bytes (c : UaaConfig) (state : GoString) :
    ∀ x ∈ authorizeQuery c state, x.val < 128 ∧ x ≠ 35 := by
  intro x hx
  rw [authorizeQuery_eq] at hx
  exact isEscaped_ascii x (encoded_bytes _ x hx)

theorem splitOn_append_sep (sep : Byte) (a b : GoString) :
    url.splitOn sep (a ++ sep :: b) = url.splitOn sep a ++ url.splitOn sep b := by
  induction a with
  | nil => simp [url.splitOn]
  | cons x a ih =>
    rw [List.cons_append, url.splitOn, url.splitOn]
    by_cases hx : x = sep
    · rw [if_pos hx, if_pos hx, ih]; rfl
    · rw [if_neg hx, if_neg hx, ih]
      cases hs : url.splitOn sep a with
      | nil => exact absurd hs (splitOn_ne_nil sep a)
      | cons h tl => rfl

theorem foldl_parseSegment_encoded (m : url.Values) (p : GoString × GoString)
    (ps : List (GoString × GoString)) :
    (url.splitOn 38 (join (str "&")
      ((p :: ps).map (fun kv => url.QueryEscape kv.1 ++ str "=" ++ url.QueryEscape kv.2)))).foldl
      url.parseSegment m = (p :: ps).foldl (fun m kv => url.Values.Add m kv.1 kv.2) m := by
  rw [splitOn_join_encoded ps p, List.foldl_map]
  congr 1
  funext m kv
  exact parseSegment_encoded m kv.1 kv.2

theorem get_Add_self (m : url.Values) (k v : GoString) :
    StrMap.get k (url.Values.Add m k v) = some ((StrMap.get k m).getD [] ++ [v]) :=
  StrMap_get_set_self k _ m

theorem get_Add_ne (m : url.Values) (k v k2 : GoString) (hne : k2 ≠ k) :
    StrMap.get k2 (url.Values.Add m k v) = StrMap.get k2 m :=
  StrMap_get_set_ne k k2 _ m hne

/-- The parameters of the login redirect, added to values that have no `state` and no
`response_type`, give exactly one `state` and one `response_type`. -/
theorem get_login_parameters (m : url.Values) (cid state : GoString)
    (h1 : StrMap.get (str "state") m = none) (h2 : StrMap.get (str "response_type") m = none) :
    StrMap.get (str "state")
      ([(str "access_type", str "offline"), (str "client_id", cid),
        (str "redirect_uri", str "http://localhost:3000/auth/cloudfoundry/callback"),
        (str "response_type", str "code"), (str "scope", []), (str "state", state)].foldl
        (fun m kv => url.Values.Add m kv.1 kv.2) m) = some [state] ∧
    StrMap.get (str "response_type")
      ([(str "access_type", str "offline"), (str "client_id", cid),
        (str "redirect_uri", str "http://localhost:3000/auth/cloudfoundry/callback"),
        (str "response_type", str "code"), (str "scope", []), (str "state", state)].foldl
        (fun m kv => url.Values.Add m kv.1 kv.2) m) = some [str "code"] := by
  simp only [List.foldl]
  constructor
  · rw [get_Add_self, get_Add_ne _ _ _ _ (by decide), get_Add_ne _ _ _ _ (by decide),
      get_Add_ne _ _ _ _ (by decide), get_Add_ne _ _ _ _ (by decide),
      get_Add_ne _ _ _ _ (by decide), h1]
    rfl
  · rw [get_Add_ne _ _ _ _ (by decide), get_Add_ne _ _ _ _ (by decide), get_Add_self,
      get_Add_ne _ _ _ _ (by decide), get_Add_ne _ _ _ _ (by decide),
      get_Add_ne _ _ _ _ (by decide), h2]
    rfl

theorem rawQuery_split (pre rest : GoString) (h63 : (63 : Byte) ∉ pre)
    (h35 : (35 : Byte) ∉ pre) (hrest : (35 : Byte) ∉ rest) :
    url.rawQuery (pre ++ 63 :: rest) = rest := by
  have hhash : (35 : Byte) ∉ pre ++ (63 : Byte) :: rest := by
    intro hmem
    rcases List.mem_append.mp hmem with h | h
    · exact h35 h
    · rcases List.mem_cons.mp h with h | h
      · exact absurd h (by decide)
      · exact hrest h
  rw [url.rawQuery, cut_not_mem 35 _ hhash, cut_append 63 pre rest h63]

/-- The redirect target of `oauthCfLogin` splits at its first `?`; what follows it parses
as the parameters of the authorization URL's own query followed by those of the login
redirect. -/
theorem login_target_split (c : UaaConfig) (state : GoString)
    (hfrag : containsByte 35 c.AuthUrl = false) :
    ∃ a1 rest : GoString,
      c.AuthUrl ++ (if containsByte 63 c.AuthUrl then str "&" else str "?") ++
        authorizeQuery c state = a1 ++ 63 :: rest ∧
      (63 : Byte) ∉ a1 ∧ (35 : Byte) ∉ a1 ∧ (35 : Byte) ∉ rest ∧
      url.ParseQuery rest =
        [(str "access_type", str "offline"), (str "client_id", c.UaaClientId),
          (str "redirect_uri", str "http://localhost:3000/auth/cloudfoundry/callback"),
          (str "response_type", str "code"), (str "scope", []), (str "state", state)].foldl
          (fun m kv => url.Values.Add m kv.1 kv.2) (url.ParseQuery (url.rawQuery c.AuthUrl)) := by
  have h35 := mem_of_containsByte_false 35 _ hfrag
  have hq35 : (35 : Byte) ∉ authorizeQuery c state :=
    fun hm => (authorizeQuery_bytes c state 35 hm).2 rfl
  have hraw : url.rawQuery c.AuthUrl = (url.cut 63 c.AuthUrl).2 := by
    rw [url.rawQuery, cut_not_mem 35 _ h35]
  cases hq : containsByte 63 c.AuthUrl with
  | true =>
    have hA := cut_eq_of_contains 63 c.AuthUrl hq
    have hmem : ∀ x : Byte, x ∈ (url.cut 63 c.AuthUrl).1 ∨ x ∈ (url.cut 63 c.AuthUrl).2 →
        x ∈ c.AuthUrl := by
      intro x hx
      rw [hA]
      rcases hx with h | h
      · exact List.mem_append_left _ h
      · exact List.mem_append_right _ (List.mem_cons_of_mem _ h)
    refine ⟨(url.cut 63 c.AuthUrl).1, (url.cut 63 c.AuthUrl).2 ++ 38 :: authorizeQuery c state,
      ?_, cut_fst_not_mem 63 _, fun hm => h35 (hmem 35 (Or.inl hm)), ?_, ?_⟩
    · simp only [if_true]
      conv_lhs => rw [hA]
      simp only [List.append_assoc, List.cons_append]
      rfl
    · intro hm
      rcases List.mem_append.mp hm with h | h
      · exact h35 (hmem 35 (Or.inr h))
      · rcases List.mem_cons.mp h with h | h
        · exact absurd h (by decide)
        · exact hq35 h
    · rw [url.ParseQuery, splitOn_append_sep, List.foldl_append, hraw, authorizeQuery_eq,
        foldl_parseSegment_encoded]
      rfl
  | false =>
    have h63 := mem_of_containsByte_false 63 _ hq
    refine ⟨c.AuthUrl, authorizeQuery c state, ?_, h63, h35, hq35, ?_⟩
    · simp only [Bool.false_eq_true, if_false]
      rw [List.append_assoc]; rfl
    · rw [hraw, cut_not_mem 63 _ h63, url.ParseQuery, authorizeQuery_eq,
        foldl_parseSegment_encoded]
      rfl

/-- C2, as amended: for every login request and every 16 bytes drawn, when
`UAA_AUTH_URL` has no fragment and its own query, if it has one, carries no `state` and
no `response_type` parameter (and, in case `net/http` takes the redirect target for a
reference without scheme and host and resolves it against the request path, the request
path has no `?` and no `#`), `oauthCfLogin` answers with status 307, one `Set-Cookie`
header, for the cookie `oauthstate` with the state token `v` as its value (expiring 20
minutes from now), and a `Location` whose query carries exactly one `response_type`,
`code`, and exactly one `state` parameter, which once URL-decoded is exactly `v`,
padding included. Unless the target is resolved against the request path, the
`Location` is the authorization URL, its non-ASCII bytes escaped, followed by `?` (or
`&` when it has a query) and the parameters of the login redirect. -/
theorem login_state_roundtrip (W : World) (r : http.Request) (b : List Byte)
    (hb : b.length = 16)
    (hfrag : containsByte 35 (getUaaConfig W).AuthUrl = false)
    (hown :
      StrMap.get (str "state") (url.ParseQuery (url.rawQuery (getUaaConfig W).AuthUrl)) = none ∧
      StrMap.get (str "response_type")
        (url.ParseQuery (url.rawQuery (getUaaConfig W).AuthUrl)) = none)
    (hpath :
      url.isRelativeReference
        ((getOauthConfig (getUaaConfig W)).AuthCodeURL (base64.EncodeToString b)
          [oauth2.AccessTypeOffline]) = true →
      containsByte 63 r.Path = false ∧ containsByte 35 r.Path = false) :
    (oauthCfLogin W b r).resp.status = 307 ∧
    (oauthCfLogin W b r).resp.setCookie =
      [{ Name := str "oauthstate", Value := base64.EncodeToString b,
         Expires := W.now + 20 * 60 }] ∧
    ∃ loc : GoString,
      (oauthCfLogin W b r).resp.location = some loc ∧
      StrMap.get (str "response_type") (url.ParseQuery (url.rawQuery loc)) =
        some [str "code"] ∧
      StrMap.get (str "state") (url.ParseQuery (url.rawQuery loc)) =
        some [base64.EncodeToString b] ∧
      (url.ParseQuery (url.rawQuery loc)).Get (str "state") = base64.EncodeToString b ∧
      (url.isRelativeReference
          ((getOauthConfig (getUaaConfig W)).AuthCodeURL (base64.EncodeToString b)
            [oauth2.AccessTypeOffline]) = false →
        loc = http.hexEscapeNonASCII (getUaaConfig W).AuthUrl ++
          (if containsByte 63 (getUaaConfig W).AuthUrl then str "&" else str "?") ++
          authorizeQuery (getUaaConfig W) (base64.EncodeToString b)) := by
  obtain ⟨hne, hbytes⟩ := token_bytes b hb
  have hsan : http.sanitizeCookieValue (base64.EncodeToString b) = base64.EncodeToString b :=
    sanitizeCookieValue_id _ (fun c hc => isAlphabet_cookie_byte c (hbytes c hc))
  have hname : http.isCookieNameValid (str "oauthstate") = true := by decide
  have hurl := AuthCodeURL_login (getUaaConfig W) (base64.EncodeToString b) hne
  have hloc : (oauthCfLogin W b r).resp.location =
      some (http.hexEscapeNonASCII (http.resolveTarget r
        ((getOauthConfig (getUaaConfig W)).AuthCodeURL (base64.EncodeToString b)
          [oauth2.AccessTypeOffline]))) := by
    simp only [oauthCfLogin, generateStateOauthCookie, http.Redirect]
  refine ⟨rfl, ?_, _, hloc, ?_⟩
  · simp only [oauthCfLogin, generateStateOauthCookie, http.SetCookie, hname, if_true, hsan,
      http.Redirect, http.Response.fresh, List.nil_append]
  · obtain ⟨a1, rest, hsplit, h63, h35, hrest, hparse⟩ :=
      login_target_split (getUaaConfig W) (base64.EncodeToString b) hfrag
    rw [hurl, hsplit] at hpath
    obtain ⟨pre, hpre, hp63, hp35⟩ := resolveTarget_split r a1 rest h63 h35 hpath
    obtain ⟨hstate, hrt⟩ := get_login_parameters
      (url.ParseQuery (url.rawQuery (getUaaConfig W).AuthUrl)) (getUaaConfig W).UaaClientId
      (base64.EncodeToString b) hown.1 hown.2
    have hq : url.ParseQuery (url.rawQuery (http.hexEscapeNonASCII (http.resolveTarget r
        ((getOauthConfig (getUaaConfig W)).AuthCodeURL (base64.EncodeToString b)
          [oauth2.AccessTypeOffline])))) =
        [(str "access_type", str "offline"), (str "client_id", (getUaaConfig W).UaaClientId),
          (str "redirect_uri", str "http://localhost:3000/auth/cloudfoundry/callback"),
          (str "response_type", str "code"), (str "scope", []),
          (str "state", base64.EncodeToString b)].foldl
          (fun m kv => url.Values.Add m kv.1 kv.2)
          (url.ParseQuery (url.rawQuery (getUaaConfig W).AuthUrl)) := by
      rw [hurl, hsplit, hpre,
        rawQuery_split pre _ hp63 hp35 (hexEscape_not_mem rest 35 (by simp) hrest),
        ParseQuery_hexEscape, hparse]
    rw [hq]
    refine ⟨hrt, hstate, ?_, ?_⟩
    · simp only [url.Values.Get, hstate]
    · intro hrel
      simp only [http.resolveTarget, hrel, Bool.false_eq_true, if_false]
      rw [hurl, hexEscape_append, hexEscape_append,
        hexEscape_ascii (authorizeQuery _ _) (fun c hc => (authorizeQuery_bytes _ _ c hc).1)]
      congr 2
      split <;> rfl

set_option maxRecDepth 1000000 in
/-- Witness of C2 (amended) at the sample bytes, whose token is
`__79_Pv6-fgAAQIDBAU-Pw==`, with `-`, `_` and padding: once with the sample authorization
URL `https://login.example/oauth/authorize`, once with an empty one, where the target is
resolved against the request path `/auth/cloudfoundry/login`. -/
theorem login_state_roundtrip_witness :
    sampleBytes.length = 16 ∧
    (∃ loc : GoString,
      (oauthCfLogin (sampleWorld 200 []) sampleBytes sampleLogin).resp.location = some loc ∧
      hasPrefix loc (str "https://login.example/oauth/authorize?") = true ∧
      (url.ParseQuery (url.rawQuery loc)).Get (str "state") =
        str "__79_Pv6-fgAAQIDBAU-Pw==") ∧
    (∃ loc : GoString,
      (oauthCfLogin (sampleWorldWithAuthUrl []) sampleBytes sampleLogin).resp.location =
        some loc ∧
      hasPrefix loc (str "/auth/cloudfoundry/?") = true ∧
      (url.ParseQuery (url.rawQuery loc)).Get (str "state") =
        str "__79_Pv6-fgAAQIDBAU-Pw==") := by
  refine ⟨by decide, ?_, ?_⟩
  · obtain ⟨_, _, loc, h3, _, _, h6, _⟩ :=
      login_state_roundtrip (sampleWorld 200 []) sampleLogin sampleBytes (by decide)
        (by decide) (by decide) (fun h => absurd h (by decide))
    refine ⟨loc, h3, ?_, h6.trans (by decide)⟩
    have e := h3.symm.trans (by decide : (oauthCfLogin (sampleWorld 200 []) sampleBytes
      sampleLogin).resp.location = some (str "https://login.example/oauth/authorize?" ++
        authorizeQuery (getUaaConfig (sampleWorld 200 [])) (base64.EncodeToString sampleBytes)))
    rw [Option.some.inj e]
    exact hasPrefix_append _ _
  · obtain ⟨_, _, loc, h3, _, _, h6, _⟩ :=
      login_state_roundtrip (sampleWorldWithAuthUrl []) sampleLogin sampleBytes (by decide)
        (by decide) (by decide) (fun _ => by decide)
    refine ⟨loc, h3, ?_, h6.trans (by decide)⟩
    have e := h3.symm.trans (by decide : (oauthCfLogin (sampleWorldWithAuthUrl []) sampleBytes
      sampleLogin).resp.location = some (str "/auth/cloudfoundry/?" ++
        authorizeQuery (getUaaConfig (sampleWorldWithAuthUrl []))
          (base64.EncodeToString sampleBytes)))
    rw [Option.some.inj e]
    exact hasPrefix_append _ _

set_option maxRecDepth 1000000 in
/-- C2 as stated fails for an authorization URL with a fragment: with
`UAA_AUTH_URL=https://login.example/oauth/authorize#login` the parameters are appended
after the fragment, so the `Location` has no query: it carries neither `response_type`
nor `state`. -/
theorem login_state_lost_in_fragment :
    sampleBytes.length = 16 ∧
    (oauthCfLogin (sampleWorldWithAuthUrl (str "https://login.example/oauth/authorize#login"))
      sampleBytes sampleLogin).resp.location = some sampleFragmentLocation ∧
    url.rawQuery sampleFragmentLocation = [] ∧
    StrMap.get (str "state") (url.ParseQuery (url.rawQuery sampleFragmentLocation)) = none ∧
    StrMap.get (str "response_type")
      (url.ParseQuery (url.rawQuery sampleFragmentLocation)) = none ∧
    (url.ParseQuery (url.rawQuery sampleFragmentLocation)).Get (str "state") ≠
      base64.EncodeToString sampleBytes := by
  decide

/-! ## C3: the success path -/

/-- C3, as amended: for every callback request whose `state` equals the `oauthstate`
cookie and whose code the provider accepts, and for every JSON object returned by the
userinfo endpoint whose number literals all fit `float64` (with values that are strings,
numbers, booleans, null, arrays or nested objects), `oauthCfCallback` answers 200 with
the body `user info: ` followed by the `%s` rendering of the decoded map and a newline,
and the decoded map is that JSON object: its keys are exactly the member names, and
under each name it holds the value of the last member of that name. -/
theorem callback_renders_userinfo (W : World) (r : http.Request) (v data : GoString)
    (token : oauth2.Token) (resp : HttpResponse) (members : List (GoString × JValue))
    (hc : r.Cookie (str "oauthstate") = .ok v) (hs : r.FormValue (str "state") = v)
    (hex : W.Exchange (getOauthConfig (getUaaConfig W)) (r.FormValue (str "code")) = .ok token)
    (hget : W.Get (getOauthConfig (getUaaConfig W)) token
      ((getUaaConfig W).BaseUrl ++ str "/userinfo") = .ok resp)
    (hbody : resp.Body = .ok data)
    (hscan : W.scan data = some (.object members))
    (hfit : json.numbersFit W.parseFloat (.object members) = true) :
    ∃ m : GoMap,
      (getUserData W (r.FormValue (str "code"))).1 = .ok (some m) ∧
      json.represents W.parseFloat (.object members) (.map m) = true ∧
      (oauthCfCallback W r).resp.status = 200 ∧
      (oauthCfCallback W r).resp.location = none ∧
      (oauthCfCallback W r).resp.body =
        str "user info: " ++ fmt.printValue W.formatFloat (.map m) ++ str "\n" := by
  have hu := getUserData_ok W _ data token resp hex hget hbody
  have hun : (json.Unmarshal W.scan W.parseFloat data).1 =
      some (json.objectInterface W.parseFloat members []).1 := by
    simp only [json.Unmarshal, hscan]
  rw [hun] at hu
  refine ⟨(json.objectInterface W.parseFloat members []).1, ?_, ?_, ?_⟩
  · rw [hu]
  · exact represents_object W.parseFloat members
      (represents_members W.parseFloat members (numbersFit_object W.parseFloat members hfit))
  · rw [callback_user_data_ok W r v _ _ hc hs hu]
    exact ⟨rfl, rfl, rfl⟩

set_option maxRecDepth 100000 in
/-- Witness of C3 (amended): the userinfo endpoint answers with an object that has a
string, a boolean and a number. -/
theorem callback_renders_userinfo_witness :
    ∃ m : GoMap,
      json.represents sampleParseFloat
        (.object [(str "sub", .string (str "u1")), (str "admin", .bool true),
          (str "n", .number (str "7"))]) (.map m) = true ∧
      (oauthCfCallback
        (sampleWorld 200 (str "\x7b\x22sub\x22:\x22u1\x22,\x22admin\x22:true,\x22n\x22:7\x7d"))
        (sampleRequest [(str "oauthstate", str "abc")]
          [(str "state", str "abc"), (str "code", str "good")])).resp.body =
        str "user info: " ++ fmt.printValue (fun bits =>
          if bits = 0x401C000000000000 then str "7" else str "1") (.map m) ++ str "\n" := by
  obtain ⟨m, _, h2, _, _, h5⟩ := callback_renders_userinfo
    (sampleWorld 200 (str "\x7b\x22sub\x22:\x22u1\x22,\x22admin\x22:true,\x22n\x22:7\x7d"))
    (sampleRequest [(str "oauthstate", str "abc")]
      [(str "state", str "abc"), (str "code", str "good")])
    (str "abc") (str "\x7b\x22sub\x22:\x22u1\x22,\x22admin\x22:true,\x22n\x22:7\x7d")
    { AccessToken := str "tok" }
    { StatusCode := 200,
      Body := .ok (str "\x7b\x22sub\x22:\x22u1\x22,\x22admin\x22:true,\x22n\x22:7\x7d") }
    [(str "sub", .string (str "u1")), (str "admin", .bool true), (str "n", .number (str "7"))]
    rfl rfl rfl rfl rfl rfl (by decide)
  exact ⟨m, h2, h5⟩

set_option maxRecDepth 100000 in
/-- C3 as stated fails on an object with a number that does not fit `float64`: for the
userinfo body with the member `n` of value `1e999` the handler answers 200 with
`user info: map[n:<nil>]`; the decoded map holds `nil` under `n`, and is not the JSON
object. -/
theorem callback_number_out_of_range :
    (sampleWorld 200 (str "\x7b\x22n\x22:1e999\x7d")).scan (str "\x7b\x22n\x22:1e999\x7d") =
      some (.object [(str "n", .number (str "1e999"))]) ∧
    (getUserData (sampleWorld 200 (str "\x7b\x22n\x22:1e999\x7d")) (str "good")).1 =
      .ok (some [(str "n", GoValue.nil)]) ∧
    json.represents sampleParseFloat (.object [(str "n", .number (str "1e999"))])
      (.map [(str "n", GoValue.nil)]) = false ∧
    (oauthCfCallback (sampleWorld 200 (str "\x7b\x22n\x22:1e999\x7d"))
      (sampleRequest [(str "oauthstate", str "abc")]
        [(str "state", str "abc"), (str "code", str "good")])).resp.status = 200 ∧
    (oauthCfCallback (sampleWorld 200 (str "\x7b\x22n\x22:1e999\x7d"))
      (sampleRequest [(str "oauthstate", str "abc")]
        [(str "state", str "abc"), (str "code", str "good")])).resp.body =
      str "user info: map[n:<nil>]\n" :=
  ⟨rfl, rfl, by decide, by decide, by decide⟩

/-! ## C4: a failed code exchange -/

/-- C4: for every callback request that passes state validation and whose code exchange
returns an error, `getUserData` returns an error having called only the token endpoint
(no request to the userinfo endpoint is made), and `oauthCfCallback` answers with a
307 redirect to `/`. -/
theorem callback_exchange_failure (W : World) (r : http.Request) (v err : GoString)
    (hc : r.Cookie (str "oauthstate") = .ok v) (hs : r.FormValue (str "state") = v)
    (hex : W.Exchange (getOauthConfig (getUaaConfig W)) (r.FormValue (str "code")) =
      .error err) :
    (getUserData W (r.FormValue (str "code"))).1 =
      .error (str "code exchange wrong: " ++ err) ∧
    (getUserData W (r.FormValue (str "code"))).2 =
      [Call.token ((getUaaConfig W).BaseUrl ++ str "/oauth/token") (r.FormValue (str "code"))] ∧
    (∀ u, Call.userinfo u ∉ (oauthCfCallback W r).calls) ∧
    (oauthCfCallback W r).resp.status = 307 ∧
    (oauthCfCallback W r).resp.location = some (str "/") := by
  have hu := getUserData_exchange_error W (r.FormValue (str "code")) err hex
  have e := callback_user_data_error W r v _ _ hc hs hu
  rw [e, hu]
  refine ⟨rfl, rfl, ?_, rfl, rfl⟩
  intro u hmem
  simp at hmem

/-- Witness of C4: the sample provider rejects the code `stale`. -/
theorem callback_exchange_failure_witness :
    (oauthCfCallback (sampleWorld 200 (str "null"))
      (sampleRequest [(str "oauthstate", str "abc")]
        [(str "state", str "abc"), (str "code", str "stale")])).resp.status = 307 :=
  (callback_exchange_failure (sampleWorld 200 (str "null"))
    (sampleRequest [(str "oauthstate", str "abc")]
      [(str "state", str "abc"), (str "code", str "stale")])
    (str "abc") (str "invalid_grant") rfl rfl rfl).2.2.2.1

/-! ## C5: a request without `state` -/

/-- C5, as amended: for every callback request without a `state` form value, the flow is
aborted (redirect to `/`, no outbound call) whenever the `oauthstate` cookie is absent
or holds a non-empty value; when the cookie is present with an empty value the handler
goes on to the code exchange. -/
theorem callback_missing_state (W : World) (r : http.Request)
    (habs : ∀ p ∈ r.form, p.1 ≠ str "state") :
    (r.Cookie (str "oauthstate") ≠ .ok [] →
      (oauthCfCallback W r).resp = redirectToRoot r ∧ (oauthCfCallback W r).calls = []) ∧
    (r.Cookie (str "oauthstate") = .ok [] →
      (oauthCfCallback W r).calls.head? =
        some (Call.token ((getUaaConfig W).BaseUrl ++ str "/oauth/token")
          (r.FormValue (str "code")))) := by
  have hf := FormValue_absent r (str "state") habs
  constructor
  · intro hne
    cases hc : r.Cookie (str "oauthstate") with
    | error err => rw [callback_no_cookie W r err hc]; exact ⟨rfl, rfl⟩
    | ok v =>
      have hv : r.FormValue (str "state") ≠ v := by
        rw [hf]
        intro h0
        exact hne (by rw [hc, ← h0])
      rw [callback_mismatch W r v hc hv]; exact ⟨rfl, rfl⟩
  · intro hc
    cases hu : getUserData W (r.FormValue (str "code")) with
    | mk res calls =>
      have hcalls : calls.head? = some (Call.token ((getUaaConfig W).BaseUrl ++ str "/oauth/token")
          (r.FormValue (str "code"))) := by
        have h2 := getUserData_calls_head W (r.FormValue (str "code"))
        rw [hu] at h2
        exact h2
      cases res with
      | error err => rw [callback_user_data_error W r [] err calls hc hf hu]; exact hcalls
      | ok m => rw [callback_user_data_ok W r [] m calls hc hf hu]; exact hcalls

/-- Witness of C5 (amended): no `state`, a cookie with the value `abc`. -/
theorem callback_missing_state_witness :
    (oauthCfCallback (sampleWorld 200 (str "null"))
      (sampleRequest [(str "oauthstate", str "abc")] [(str "code", str "good")])).calls = [] :=
  ((callback_missing_state (sampleWorld 200 (str "null"))
    (sampleRequest [(str "oauthstate", str "abc")] [(str "code", str "good")])
    (by decide)).1 (by decide)).2

set_option maxRecDepth 100000 in
/-- C5 as stated fails: a request without `state` whose `oauthstate` cookie is present and
empty passes the comparison; the handler calls the token endpoint and the userinfo
endpoint and answers 200. -/
theorem callback_missing_state_empty_cookie :
    (∀ p ∈ (sampleRequest [(str "oauthstate", [])] [(str "code", str "good")]).form,
      p.1 ≠ str "state") ∧
    (oauthCfCallback (sampleWorld 200 (str "null"))
      (sampleRequest [(str "oauthstate", [])] [(str "code", str "good")])).calls =
      [Call.token (str "https://uaa.example/oauth/token") (str "good"),
        Call.userinfo (str "https://uaa.example/userinfo")] ∧
    (oauthCfCallback (sampleWorld 200 (str "null"))
      (sampleRequest [(str "oauthstate", [])] [(str "code", str "good")])).resp.status = 200 := by
  decide

/-! ## C6: the two shapes of the callback response -/

/-- C6: for every callback request and every behaviour of the provider, the response of
`oauthCfCallback` has one of two shapes. Either no step of the callback state machine
fails (the cookie is present, the state matches, the code exchange, the profile fetch
and the reading of its body succeed) and the response is status 200 without `Location`
and with a body that starts with `user info: `; or some step fails (`MissingState`,
`StateMismatch`, `ExchangeFailed` or `ProfileFetchFailed`) and the response is the 307
redirect to `/` to which the handler writes nothing (the body holds only the fixed note
of `http.Redirect` when the request is a `GET`), the same response for every failure
and every error message. -/
theorem callback_two_shapes (W : World) (r : http.Request) :
    (callbackFailure W r = none ∧
      (oauthCfCallback W r).resp.status = 200 ∧
      (oauthCfCallback W r).resp.location = none ∧
      hasPrefix (oauthCfCallback W r).resp.body (str "user info: ") = true ∧
      ∃ v token resp data,
        r.Cookie (str "oauthstate") = .ok v ∧ r.FormValue (str "state") = v ∧
        W.Exchange (getOauthConfig (getUaaConfig W)) (r.FormValue (str "code")) = .ok token ∧
        W.Get (getOauthConfig (getUaaConfig W)) token
          ((getUaaConfig W).BaseUrl ++ str "/userinfo") = .ok resp ∧
        resp.Body = .ok data) ∨
    (∃ f, callbackFailure W r = some f ∧
      (oauthCfCallback W r).resp =
        { status := 307, location := some (str "/"), setCookie := [], body := [],
          note :=
            if r.Method = str "GET" then
              str "<a href=\x22/\x22>Temporary Redirect</a>.\n\n"
            else [] }) := by
  cases hc : r.Cookie (str "oauthstate") with
  | error err =>
    refine Or.inr ⟨.MissingState, ?_, ?_⟩
    · simp only [callbackFailure, hc]
    · rw [callback_no_cookie W r err hc]; rfl
  | ok v =>
    by_cases hs : r.FormValue (str "state") = v
    · cases hex : W.Exchange (getOauthConfig (getUaaConfig W)) (r.FormValue (str "code")) with
      | error err =>
        refine Or.inr ⟨.ExchangeFailed, ?_, ?_⟩
        · simp only [callbackFailure, hc, hs, hex, ne_eq, not_true_eq_false, if_false]
        · rw [callback_user_data_error W r v _ _ hc hs
            (getUserData_exchange_error W _ err hex)]
          rfl
      | ok token =>
        cases hget : W.Get (getOauthConfig (getUaaConfig W)) token
            ((getUaaConfig W).BaseUrl ++ str "/userinfo") with
        | error err =>
          refine Or.inr ⟨.ProfileFetchFailed, ?_, ?_⟩
          · simp only [callbackFailure, hc, hs, hex, hget, ne_eq, not_true_eq_false, if_false]
          · rw [callback_user_data_error W r v _ _ hc hs
              (getUserData_get_error W _ err token hex hget)]
            rfl
        | ok resp =>
          cases hbody : resp.Body with
          | error err =>
            refine Or.inr ⟨.ProfileFetchFailed, ?_, ?_⟩
            · simp only [callbackFailure, hc, hs, hex, hget, hbody, ne_eq, not_true_eq_false,
                if_false]
            · rw [callback_user_data_error W r v _ _ hc hs
                (getUserData_read_error W _ err token resp hex hget hbody)]
              rfl
          | ok data =>
            refine Or.inl ⟨?_, ?_⟩
            · simp only [callbackFailure, hc, hs, hex, hget, hbody, ne_eq, not_true_eq_false,
                if_false]
            · rw [callback_user_data_ok W r v _ _ hc hs
                (getUserData_ok W _ data token resp hex hget hbody)]
              refine ⟨rfl, rfl, ?_, v, token, resp, data, rfl, hs, rfl, hget, hbody⟩
              simp only [List.append_assoc]
              exact hasPrefix_append _ _
    · refine Or.inr ⟨.StateMismatch, ?_, ?_⟩
      · simp only [callbackFailure, hc, ne_eq, hs, not_false_eq_true, if_true]
      · rw [callback_mismatch W r v hc hs]; rfl

/-! ## C7: the state token -/

/-- C7, as amended: for every 16-byte value `b`, the state token that
`generateStateOauthCookie` derives from `b` decodes as base64url back to exactly `b`, no
other byte string yields the same token, and the token is 22 characters of the URL-safe
alphabet followed by the two padding characters `==`. -/
theorem state_token_is_padded_base64url (W : World) (w : http.Response) (b : List Byte)
    (hb : b.length = 16) :
    base64.DecodeString (generateStateOauthCookie W b w).2 = some b ∧
    (∀ b2 : List Byte,
      (generateStateOauthCookie W b2 w).2 = (generateStateOauthCookie W b w).2 → b2 = b) ∧
    ∃ body : GoString,
      (generateStateOauthCookie W b w).2 = body ++ [base64.padChar, base64.padChar] ∧
      body.length = 22 ∧ body.all base64.isAlphabet = true := by
  refine ⟨DecodeString_EncodeToString b, fun b2 h => EncodeToString_injective b2 b h, ?_⟩
  obtain ⟨body, h1, h2, h3⟩ := EncodeToString_shape b (by rw [hb])
  exact ⟨body, h1, by rw [h2, hb], h3⟩

/-- Witness of C7 at the sample bytes. -/
theorem state_token_is_padded_base64url_witness :
    sampleBytes.length = 16 ∧
    base64.DecodeString
      (generateStateOauthCookie (sampleWorld 200 []) sampleBytes http.Response.fresh).2 =
        some sampleBytes :=
  ⟨by decide,
    (state_token_is_padded_base64url (sampleWorld 200 []) http.Response.fresh sampleBytes
      (by decide)).1⟩

/-- C7 as stated fails: the token of sixteen zero bytes is `AAAAAAAAAAAAAAAAAAAAAA==`,
which carries padding, so not all of its characters are of the URL-safe alphabet. -/
theorem state_token_has_padding :
    (List.replicate 16 (0 : Byte)).length = 16 ∧
    (generateStateOauthCookie (sampleWorld 200 []) (List.replicate 16 0) http.Response.fresh).2 =
      str "AAAAAAAAAAAAAAAAAAAAAA==" ∧
    (generateStateOauthCookie (sampleWorld 200 []) (List.replicate 16 0)
      http.Response.fresh).2.all base64.isAlphabet = false := by
  decide

/-! ## C8: the client descriptor -/

/-- C8: `getOauthConfig` is a function of its `UaaConfig` argument alone: for every
config `c` the descriptor has the fixed redirect URL
`http://localhost:3000/auth/cloudfoundry/callback`, the client id and secret of `c`, the
token URL `c.BaseUrl ++ "/oauth/token"`, the auth URL of `c`, the in-header auth style
and the scope list `[""]`, whose join (the `scope` parameter) is empty; equal configs
give equal descriptors. -/
theorem getOauthConfig_fields (c c2 : UaaConfig) :
    (getOauthConfig c).RedirectURL = str "http://localhost:3000/auth/cloudfoundry/callback" ∧
    (getOauthConfig c).ClientID = c.UaaClientId ∧
    (getOauthConfig c).ClientSecret = c.UaaClientSecret ∧
    (getOauthConfig c).Endpoint.TokenURL = c.BaseUrl ++ str "/oauth/token" ∧
    (getOauthConfig c).Endpoint.AuthURL = c.AuthUrl ∧
    (getOauthConfig c).Endpoint.AuthStyle = oauth2.AuthStyle.InHeader ∧
    (getOauthConfig c).Scopes = [[]] ∧
    join (str " ") (getOauthConfig c).Scopes = [] ∧
    (c = c2 → getOauthConfig c = getOauthConfig c2) :=
  ⟨rfl, rfl, rfl, rfl, rfl, rfl, rfl, rfl, fun h => congrArg getOauthConfig h⟩

/-- Witness of C8 at the sample environment. -/
theorem getOauthConfig_fields_witness :
    (getOauthConfig (getUaaConfig (sampleWorld 200 []))).Endpoint.TokenURL =
      str "https://uaa.example/oauth/token" :=
  ((getOauthConfig_fields (getUaaConfig (sampleWorld 200 []))
    (getUaaConfig (sampleWorld 200 []))).2.2.2.1).trans (by decide)

/-! ## C9: a body that is not a JSON object -/

theorem Unmarshal_not_object (scan : GoString → Option JValue)
    (parseFloat : GoString → Option Nat) (data : GoString)
    (h : scan data = none ∨ ∃ j, scan data = some j ∧ ∀ members, j ≠ .object members) :
    (json.Unmarshal scan parseFloat data).1 = none ∧
    ((json.Unmarshal scan parseFloat data).2 = false → scan data = some .null) := by
  rcases h with h | ⟨j, hj, hno⟩
  · simp [json.Unmarshal, h]
  · cases j with
    | object members => exact absurd rfl (hno members)
    | null => simp [json.Unmarshal, hj]
    | bool b => simp [json.Unmarshal, hj]
    | number lit => simp [json.Unmarshal, hj]
    | string s => simp [json.Unmarshal, hj]
    | array elems => simp [json.Unmarshal, hj]

/-- C9: for every callback that passes state validation, code exchange and profile fetch,
and every userinfo body that does not decode as a JSON object (the text is invalid JSON,
or it is a JSON value other than an object), `json.Unmarshal` leaves the map nil and,
unless the text is `null`, returns an error; `getUserData` drops that error and returns
the nil map with a nil error, and `oauthCfCallback` renders it with status 200, as
`user info: map[]`, instead of redirecting to `/`. -/
theorem callback_swallows_decode_error (W : World) (r : http.Request) (v data : GoString)
    (token : oauth2.Token) (resp : HttpResponse)
    (hc : r.Cookie (str "oauthstate") = .ok v) (hs : r.FormValue (str "state") = v)
    (hex : W.Exchange (getOauthConfig (getUaaConfig W)) (r.FormValue (str "code")) = .ok token)
    (hget : W.Get (getOauthConfig (getUaaConfig W)) token
      ((getUaaConfig W).BaseUrl ++ str "/userinfo") = .ok resp)
    (hbody : resp.Body = .ok data)
    (hbad : W.scan data = none ∨ ∃ j, W.scan data = some j ∧ ∀ members, j ≠ .object members) :
    ((json.Unmarshal W.scan W.parseFloat data).2 = false → W.scan data = some .null) ∧
    (getUserData W (r.FormValue (str "code"))).1 = .ok none ∧
    (oauthCfCallback W r).resp.status = 200 ∧
    (oauthCfCallback W r).resp.location = none ∧
    (oauthCfCallback W r).resp.body = str "user info: map[]\n" := by
  have hu := getUserData_ok W _ data token resp hex hget hbody
  obtain ⟨h1, h2⟩ := Unmarshal_not_object W.scan W.parseFloat data hbad
  rw [h1] at hu
  rw [callback_user_data_ok W r v _ _ hc hs hu, hu]
  exact ⟨h2, rfl, rfl, rfl, rfl⟩

/-- Witness of C9: the userinfo endpoint answers with the text `[1]`. -/
theorem callback_swallows_decode_error_witness :
    (oauthCfCallback (sampleWorld 200 (str "[1]"))
      (sampleRequest [(str "oauthstate", str "abc")]
        [(str "state", str "abc"), (str "code", str "good")])).resp.body =
      str "user info: map[]\n" :=
  (callback_swallows_decode_error (sampleWorld 200 (str "[1]"))
    (sampleRequest [(str "oauthstate", str "abc")]
      [(str "state", str "abc"), (str "code", str "good")])
    (str "abc") (str "[1]") { AccessToken := str "tok" }
    { StatusCode := 200, Body := .ok (str "[1]") } rfl rfl rfl rfl rfl
    (Or.inr ⟨.array [.number (str "1")], rfl, fun _ h => by cases h⟩)).2.2.2.2

/-! ## C10: the status of the userinfo response -/

/-- C10: `getUserData` never looks at the HTTP status of the userinfo response: for every
callback that passes state validation and code exchange, if the userinfo request
returns a response of any status (401, 403 and 500 included) whose body can be read,
`getUserData` returns a nil error and `oauthCfCallback` answers 200 with `user info: `
followed by the rendering of whatever the body decoded to, and does not redirect. -/
theorem callback_ignores_userinfo_status (W : World) (r : http.Request) (v data : GoString)
    (token : oauth2.Token) (status : Nat)
    (hc : r.Cookie (str "oauthstate") = .ok v) (hs : r.FormValue (str "state") = v)
    (hex : W.Exchange (getOauthConfig (getUaaConfig W)) (r.FormValue (str "code")) = .ok token)
    (hget : W.Get (getOauthConfig (getUaaConfig W)) token
      ((getUaaConfig W).BaseUrl ++ str "/userinfo") =
        .ok { StatusCode := status, Body := .ok data }) :
    (getUserData W (r.FormValue (str "code"))).1 =
      .ok (json.Unmarshal W.scan W.parseFloat data).1 ∧
    (oauthCfCallback W r).resp.status = 200 ∧
    (oauthCfCallback W r).resp.location = none ∧
    (oauthCfCallback W r).resp.body =
      str "user info: " ++
        fmt.sprintMap W.formatFloat (json.Unmarshal W.scan W.parseFloat data).1 ++ str "\n" := by
  have hu := getUserData_ok W _ data token _ hex hget rfl
  rw [callback_user_data_ok W r v _ _ hc hs hu, hu]
  exact ⟨rfl, rfl, rfl, rfl⟩

set_option maxRecDepth 100000 in
/-- Witness of C10: the userinfo endpoint answers 500 with a JSON object. -/
theorem callback_ignores_userinfo_status_witness :
    (oauthCfCallback
      (sampleWorld 500 (str "\x7b\x22sub\x22:\x22u1\x22,\x22admin\x22:true,\x22n\x22:7\x7d"))
      (sampleRequest [(str "oauthstate", str "abc")]
        [(str "state", str "abc"), (str "code", str "good")])).resp.status = 200 ∧
    (oauthCfCallback
      (sampleWorld 500 (str "\x7b\x22sub\x22:\x22u1\x22,\x22admin\x22:true,\x22n\x22:7\x7d"))
      (sampleRequest [(str "oauthstate", str "abc")]
        [(str "state", str "abc"), (str "code", str "good")])).resp.body =
      str "user info: map[admin:%!s(bool=true) n:%!s(float64=7) sub:u1]\n" :=
  ⟨(callback_ignores_userinfo_status
      (sampleWorld 500 (str "\x7b\x22sub\x22:\x22u1\x22,\x22admin\x22:true,\x22n\x22:7\x7d"))
      (sampleRequest [(str "oauthstate", str "abc")]
        [(str "state", str "abc"), (str "code", str "good")])
      (str "abc") (str "\x7b\x22sub\x22:\x22u1\x22,\x22admin\x22:true,\x22n\x22:7\x7d")
      { AccessToken := str "tok" } 500 rfl rfl rfl rfl).2.1, by decide⟩

end DashboardProxy
